import Mathlib

/-!
Shallow embedding of the collision engine of `optimized_collision.py`
(spatial hash, LRU collision cache, broad/narrow-phase detector), with the
screen constants from `config.py`.  Python integer floor division (`//`)
is `Int.fdiv`; pygame rectangles are integer `(x, y, w, h)` with
`left = x`, `right = x + w`, `top = y`, `bottom = y + h`.  Python `dict`s
are insertion-ordered association lists, Python lists are `List`, and the
set of candidates built by `SpatialHash.query` is modelled as a
duplicate-free list (set iteration order is unspecified in Python; only
membership of the results is claimed).
-/

/-- Screen width in pixels (`config.py`: `SCREEN_WIDTH = 480`). -/
def SCREEN_WIDTH : Int := 480

/-- Screen height in pixels (`config.py`: `SCREEN_HEIGHT = 700`). -/
def SCREEN_HEIGHT : Int := 700

/-- Integer axis-aligned rectangle, as `pygame.Rect`. -/
structure Rect where
  x : Int
  y : Int
  w : Int
  h : Int
  deriving DecidableEq, Repr

def Rect.left (r : Rect) : Int := r.x

def Rect.right (r : Rect) : Int := r.x + r.w

def Rect.top (r : Rect) : Int := r.y

def Rect.bottom (r : Rect) : Int := r.y + r.h

/-- The `(rect.x, rect.y)` pair used by the cache key. -/
def Rect.pos (r : Rect) : Int × Int := (r.x, r.y)

/-- Models `pygame.Rect.colliderect`, the detector's default exact test
(`optimized_collision.py` lines 234 and 301): zero-sized rectangles never
collide, and otherwise the normalized extents must overlap strictly —
pygame documents that rectangles touching only along an edge do not
collide. -/
def Rect.colliderect (a b : Rect) : Bool :=
  if a.w = 0 ∨ a.h = 0 ∨ b.w = 0 ∨ b.h = 0 then false
  else
    decide (min a.x (a.x + a.w) < max b.x (b.x + b.w)) &&
    decide (min a.y (a.y + a.h) < max b.y (b.y + b.h)) &&
    decide (max a.x (a.x + a.w) > min b.x (b.x + b.w)) &&
    decide (max a.y (a.y + a.h) > min b.y (b.y + b.h))

/-- The default exact test as worded by the spec: all four inequalities
non-strict.  Declared only to be compared with the code's
`Rect.colliderect`. -/
def specOverlap (a b : Rect) : Bool :=
  decide (a.right ≥ b.left) && decide (a.left ≤ b.right) &&
  decide (a.bottom ≥ b.top) && decide (a.top ≤ b.bottom)

/-- A sprite as the collision engine sees it: a stable identity
(Python `id()`) plus its current rectangle. -/
structure Entity where
  eid : Nat
  rect : Rect
  deriving DecidableEq, Repr

/-- Python `range(a, b + 1)` over integers. -/
def intRange (a b : Int) : List Int :=
  (List.range (b + 1 - a).toNat).map (fun (i : Nat) => a + (i : Int))

/-- Cells spanned by a rectangle (`SpatialHash._get_cells`): each side is
floor-divided by the cell size; the `x` span is clamped to
`[0, SCREEN_WIDTH // cellSize]` and the `y` span to
`[0, SCREEN_HEIGHT // cellSize]`; the nested loops enumerate the span. -/
def getCells (cellSize : Int) (r : Rect) : List (Int × Int) :=
  let startX := max 0 (Int.fdiv r.left cellSize)
  let endX := min (Int.fdiv SCREEN_WIDTH cellSize) (Int.fdiv r.right cellSize)
  let startY := max 0 (Int.fdiv r.top cellSize)
  let endY := min (Int.fdiv SCREEN_HEIGHT cellSize) (Int.fdiv r.bottom cellSize)
  (intRange startX endX).flatMap (fun cx => (intRange startY endY).map (fun cy => (cx, cy)))

/-- Spatial hash state: the cell size and the bucket table.  A Python dict
cell → bucket is modelled as a total function returning `[]` for absent
cells (`query` treats absent and empty buckets identically). -/
structure SpatialHash where
  cellSize : Int
  table : Int × Int → List Entity

/-- Fresh spatial hash (`SpatialHash.__init__` / `clear`). -/
def SpatialHash.empty (cellSize : Int) : SpatialHash :=
  ⟨cellSize, fun _ => []⟩

/-- Appends the sprite to the bucket of every cell its rectangle spans
(`SpatialHash.insert`). -/
def SpatialHash.insert (hsh : SpatialHash) (e : Entity) : SpatialHash :=
  { hsh with
    table := fun c =>
      if c ∈ getCells hsh.cellSize e.rect then hsh.table c ++ [e] else hsh.table c }

/-- Collects the buckets of every cell the sprite's rectangle spans,
deduplicates (a Python set), and discards the sprite itself
(`SpatialHash.query`). -/
def SpatialHash.query (hsh : SpatialHash) (s : Entity) : List Entity :=
  (((getCells hsh.cellSize s.rect).flatMap hsh.table).dedup).filter (fun e => e ≠ s)

/-- Cache key type: `(min(id1, id2), max(id1, id2), pos1, pos2)`. -/
abbrev CKey := Nat × Nat × (Int × Int) × (Int × Int)

/-- Cache key (`CollisionCache._get_cache_key`): the two ids are sorted,
but the two positions stay in argument order. -/
def cacheKey (s1 s2 : Entity) : CKey :=
  (min s1.eid s2.eid, max s1.eid s2.eid, s1.rect.pos, s2.rect.pos)

/-- Lookup in the insertion-ordered dict modelling `self.cache`. -/
def lookupKey (l : List (CKey × Bool)) (k : CKey) : Option Bool :=
  (l.find? (fun p => p.1 = k)).map (fun p => p.2)

/-- Python `self.cache[key] = result`: update in place when the key is
present, append otherwise. -/
def insertKey (l : List (CKey × Bool)) (k : CKey) (v : Bool) : List (CKey × Bool) :=
  if (l.find? (fun p => p.1 = k)).isSome then
    l.map (fun p => if p.1 = k then (k, v) else p)
  else l ++ [(k, v)]

/-- Python `del self.cache[key]` (used only on a key known present). -/
def delKey (l : List (CKey × Bool)) (k : CKey) : List (CKey × Bool) :=
  l.eraseP (fun p => p.1 = k)

/-- LRU collision cache (`CollisionCache`): the result dict, the capacity
(default 1000) and the access-order list. -/
structure CollisionCache where
  cache : List (CKey × Bool)
  maxSize : Nat
  accessOrder : List CKey
  deriving DecidableEq, Repr

/-- Fresh cache (`CollisionCache.__init__`). -/
def CollisionCache.empty (maxSize : Nat) : CollisionCache :=
  ⟨[], maxSize, []⟩

/-- Key-level `CollisionCache.get`: on a hit the key is promoted to
most-recently-used (remove + reappend) and the stored boolean returned;
on a miss the state is untouched and `none` returned. -/
def CollisionCache.getk (c : CollisionCache) (k : CKey) : Option Bool × CollisionCache :=
  match lookupKey c.cache k with
  | some v => (some v, { c with accessOrder := c.accessOrder.erase k ++ [k] })
  | none => (none, c)

/-- Entity-level `CollisionCache.get` builds the key first. -/
def CollisionCache.get (c : CollisionCache) (s1 s2 : Entity) : Option Bool × CollisionCache :=
  c.getk (cacheKey s1 s2)

/-- Eviction check of `CollisionCache.put` (lines 141-143): when the cache
is full and the key is new, the front of the access order (least recently
used) is dropped from both the dict and the order list.  The
empty-access-order match arm is unreachable whenever the access order and
the dict have the same length and the capacity is positive (on such states
Python's `access_order.pop(0)` cannot fail either). -/
def CollisionCache.evictIfFull (c : CollisionCache) (k : CKey) : CollisionCache :=
  if c.cache.length ≥ c.maxSize ∧ lookupKey c.cache k = none then
    match c.accessOrder with
    | [] => c
    | oldest :: rest => { c with cache := delKey c.cache oldest, accessOrder := rest }
  else c

/-- Store step of `CollisionCache.put` after the eviction check:
`self.cache[key] = result`, then move the key to the back of the access
order. -/
def CollisionCache.putk (c : CollisionCache) (k : CKey) (v : Bool) : CollisionCache :=
  let c1 := c.evictIfFull k
  { c1 with cache := insertKey c1.cache k v, accessOrder := c1.accessOrder.erase k ++ [k] }

/-- Entity-level `CollisionCache.put`. -/
def CollisionCache.put (c : CollisionCache) (s1 s2 : Entity) (v : Bool) : CollisionCache :=
  c.putk (cacheKey s1 s2) v

/-- The detector's default exact test (`sprite1.rect.colliderect(sprite2.rect)`). -/
def defaultCollided (a b : Entity) : Bool :=
  a.rect.colliderect b.rect

/-- Cache-then-exact-test resolution of one candidate pair, as inlined in
`groupcollide_optimized` (lines 221-238) and `spritecollide_optimized`
(lines 288-305): consult the cache when enabled, otherwise run the
predicate and store the result. -/
def resolveCollision (useCache : Bool) (pred : Entity → Entity → Bool)
    (c : CollisionCache) (s1 s2 : Entity) : Bool × CollisionCache :=
  if useCache then
    match c.get s1 s2 with
    | (some v, c') => (v, c')
    | (none, c') =>
      let r := pred s1 s2
      (r, c'.put s1 s2 r)
  else (pred s1 s2, c)

/-- Python `hits[sprite1]` creation plus `hits[sprite1].append(sprite2)`
on the insertion-ordered hits dict. -/
def addHit (hits : List (Entity × List Entity)) (s1 s2 : Entity) :
    List (Entity × List Entity) :=
  if (hits.find? (fun p => p.1 = s1)).isSome then
    hits.map (fun p => if p.1 = s1 then (p.1, p.2 ++ [s2]) else p)
  else hits ++ [(s1, [s2])]

/-- Python `if sprite not in kill_list: kill_list.append(sprite)`. -/
def addKill (l : List Entity) (s : Entity) : List Entity :=
  if s ∈ l then l else l ++ [s]

/-- Accumulator threaded through the scan of `groupcollide_optimized`. -/
structure ScanState where
  cache : CollisionCache
  hits : List (Entity × List Entity)
  kills1 : List Entity
  kills2 : List Entity
  deriving Repr

/-- Body of the inner candidate loop of `groupcollide_optimized`
(lines 218-251): resolve the pair, and on a confirmed collision record
the hit and mark the two sprites for deferred removal as requested. -/
def stepCandidate (useCache : Bool) (pred : Entity → Entity → Bool) (dk1 dk2 : Bool)
    (s1 : Entity) (st : ScanState) (s2 : Entity) : ScanState :=
  let rc := resolveCollision useCache pred st.cache s1 s2
  if rc.1 then
    { cache := rc.2,
      hits := addHit st.hits s1 s2,
      kills1 := if dk1 then addKill st.kills1 s1 else st.kills1,
      kills2 := if dk2 then addKill st.kills2 s2 else st.kills2 }
  else { st with cache := rc.2 }

/-- Outer loop body of `groupcollide_optimized`: query the spatial hash for
one sprite of group 1 and fold over its candidates. -/
def scanSprite (hsh : SpatialHash) (useCache : Bool) (pred : Entity → Entity → Bool)
    (dk1 dk2 : Bool) (st : ScanState) (s1 : Entity) : ScanState :=
  (hsh.query s1).foldl (stepCandidate useCache pred dk1 dk2 s1) st

/-- Result of `groupcollide_optimized`: the hits dict, the final cache, the
two deferred kill lists, and the two groups after the deferred
`sprite.kill()` calls (a killed sprite leaves every group containing it). -/
structure GroupCollideResult where
  hits : List (Entity × List Entity)
  cache : CollisionCache
  kills1 : List Entity
  kills2 : List Entity
  group1 : List Entity
  group2 : List Entity
  deriving Repr

/-- `OptimizedCollisionDetector.groupcollide_optimized` (lines 190-259):
rebuild the spatial hash from group 2, scan group 1 against it collecting
hits and kill marks, then apply the deferred removals. -/
def groupcollide (cellSize : Int) (useCache : Bool) (c0 : CollisionCache)
    (pred : Entity → Entity → Bool) (g1 g2 : List Entity) (dk1 dk2 : Bool) :
    GroupCollideResult :=
  let hsh := g2.foldl SpatialHash.insert (SpatialHash.empty cellSize)
  let st := g1.foldl (scanSprite hsh useCache pred dk1 dk2) ⟨c0, [], [], []⟩
  { hits := st.hits, cache := st.cache, kills1 := st.kills1, kills2 := st.kills2,
    group1 := g1.filter (fun e => e ∉ st.kills1 ∧ e ∉ st.kills2),
    group2 := g2.filter (fun e => e ∉ st.kills1 ∧ e ∉ st.kills2) }

/-- Accumulator of the candidate loop of `spritecollide_optimized`.  The
kill list is appended to without a membership test, exactly as in the
source (line 312). -/
structure SpriteScanState where
  cache : CollisionCache
  collisions : List Entity
  kills : List Entity
  deriving Repr

/-- Body of the candidate loop of `spritecollide_optimized` (lines 285-312). -/
def stepSpriteCandidate (useCache : Bool) (pred : Entity → Entity → Bool) (dk : Bool)
    (s : Entity) (st : SpriteScanState) (cand : Entity) : SpriteScanState :=
  let rc := resolveCollision useCache pred st.cache s cand
  if rc.1 then
    { cache := rc.2,
      collisions := st.collisions ++ [cand],
      kills := if dk then st.kills ++ [cand] else st.kills }
  else { st with cache := rc.2 }

/-- Result of `spritecollide_optimized`. -/
structure SpriteCollideResult where
  collisions : List Entity
  cache : CollisionCache
  kills : List Entity
  group : List Entity
  deriving Repr

/-- `OptimizedCollisionDetector.spritecollide_optimized` (lines 261-318):
rebuild the spatial hash from the group, scan the single sprite's
candidates, then apply the deferred removals. -/
def spritecollide (cellSize : Int) (useCache : Bool) (c0 : CollisionCache)
    (pred : Entity → Entity → Bool) (s : Entity) (g : List Entity) (dk : Bool) :
    SpriteCollideResult :=
  let hsh := g.foldl SpatialHash.insert (SpatialHash.empty cellSize)
  let st := (hsh.query s).foldl (stepSpriteCandidate useCache pred dk s) ⟨c0, [], []⟩
  { collisions := st.collisions, cache := st.cache, kills := st.kills,
    group := g.filter (fun e => e ∉ st.kills) }

/-- The flat pair set represented by a hits dict. -/
def pairsOf (hits : List (Entity × List Entity)) : List (Entity × Entity) :=
  hits.flatMap (fun p => p.2.map (fun b => (p.1, b)))

/-- Colliding pairs of a fresh default detector (`use_cache=True`, empty
cache of capacity 1000, default exact test, no kill flags), as used by the
spec's exactness-equivalence property. -/
def groupcollidePairs (cellSize : Int) (g1 g2 : List Entity) : List (Entity × Entity) :=
  pairsOf (groupcollide cellSize true (CollisionCache.empty 1000) defaultCollided
    g1 g2 false false).hits

/-- Brute-force pairwise rectangle testing over the two collections, the
spec's comparison baseline. -/
def bruteForcePairs (g1 g2 : List Entity) : List (Entity × Entity) :=
  g1.flatMap (fun a => (g2.filter (fun b => a.rect.colliderect b.rect)).map (fun b => (a, b)))

/-! Basic lemmas about the embedded definitions. -/

theorem mem_intRange {a b c : Int} : c ∈ intRange a b ↔ a ≤ c ∧ c ≤ b := by
  unfold intRange
  simp only [List.mem_map, List.mem_range]
  constructor
  · rintro ⟨i, hi, rfl⟩
    omega
  · intro h
    exact ⟨(c - a).toNat, by omega, by omega⟩

theorem mem_getCells {cs : Int} {r : Rect} {p : Int × Int} :
    p ∈ getCells cs r ↔
      (max 0 (Int.fdiv r.left cs) ≤ p.1 ∧
        p.1 ≤ min (Int.fdiv SCREEN_WIDTH cs) (Int.fdiv r.right cs)) ∧
      (max 0 (Int.fdiv r.top cs) ≤ p.2 ∧
        p.2 ≤ min (Int.fdiv SCREEN_HEIGHT cs) (Int.fdiv r.bottom cs)) := by
  unfold getCells
  simp only [List.mem_flatMap, List.mem_map]
  constructor
  · rintro ⟨cx, hcx, cy, hcy, rfl⟩
    exact ⟨mem_intRange.mp hcx, mem_intRange.mp hcy⟩
  · rintro ⟨hx, hy⟩
    exact ⟨p.1, mem_intRange.mpr hx, p.2, mem_intRange.mpr hy, rfl⟩

theorem getCells_eq_nil_iff {cs : Int} {r : Rect} :
    getCells cs r = [] ↔
      min (Int.fdiv SCREEN_WIDTH cs) (Int.fdiv r.right cs) < max 0 (Int.fdiv r.left cs) ∨
      min (Int.fdiv SCREEN_HEIGHT cs) (Int.fdiv r.bottom cs) < max 0 (Int.fdiv r.top cs) := by
  constructor
  · intro h
    by_contra hc
    push_neg at hc
    have : (max 0 (Int.fdiv r.left cs), max 0 (Int.fdiv r.top cs)) ∈ getCells cs r :=
      mem_getCells.mpr ⟨⟨le_refl _, hc.1⟩, ⟨le_refl _, hc.2⟩⟩
    rw [h] at this
    exact absurd this (List.not_mem_nil _)
  · intro h
    refine List.eq_nil_iff_forall_not_mem.mpr (fun p hp => ?_)
    have := mem_getCells.mp hp
    rcases h with h | h <;> omega

theorem colliderect_comm (a b : Rect) : a.colliderect b = b.colliderect a := by
  unfold Rect.colliderect
  by_cases h1 : a.w = 0 ∨ a.h = 0 ∨ b.w = 0 ∨ b.h = 0
  · rw [if_pos h1, if_pos (by tauto)]
  · rw [if_neg h1, if_neg (by tauto)]
    rw [Bool.eq_iff_iff]
    simp only [Bool.and_eq_true, decide_eq_true_eq]
    omega

theorem colliderect_true_iff {a b : Rect} :
    a.colliderect b = true ↔
      a.w ≠ 0 ∧ a.h ≠ 0 ∧ b.w ≠ 0 ∧ b.h ≠ 0 ∧
      min a.x (a.x + a.w) < max b.x (b.x + b.w) ∧
      min a.y (a.y + a.h) < max b.y (b.y + b.h) ∧
      max a.x (a.x + a.w) > min b.x (b.x + b.w) ∧
      max a.y (a.y + a.h) > min b.y (b.y + b.h) := by
  unfold Rect.colliderect
  by_cases h1 : a.w = 0 ∨ a.h = 0 ∨ b.w = 0 ∨ b.h = 0
  · rw [if_pos h1]
    simp only [Bool.false_eq_true, false_iff]
    tauto
  · rw [if_neg h1]
    simp only [Bool.and_eq_true, decide_eq_true_eq]
    push_neg at h1
    tauto

theorem foldl_insert_cellSize (l : List Entity) (hsh : SpatialHash) :
    (l.foldl SpatialHash.insert hsh).cellSize = hsh.cellSize := by
  induction l generalizing hsh with
  | nil => rfl
  | cons x xs ih => rw [List.foldl_cons, ih]; rfl

theorem mem_foldl_insert_table (l : List Entity) (hsh : SpatialHash)
    (c : Int × Int) (e : Entity) :
    e ∈ (l.foldl SpatialHash.insert hsh).table c ↔
      e ∈ hsh.table c ∨ (e ∈ l ∧ c ∈ getCells hsh.cellSize e.rect) := by
  induction l generalizing hsh with
  | nil => simp
  | cons x xs ih =>
    rw [List.foldl_cons, ih]
    show e ∈ (if c ∈ getCells hsh.cellSize x.rect then hsh.table c ++ [x] else hsh.table c) ∨ _ ↔ _
    by_cases hc : c ∈ getCells hsh.cellSize x.rect
    · rw [if_pos hc]
      simp only [List.mem_append, List.mem_cons, List.not_mem_nil, or_false]
      constructor
      · rintro ((h | rfl) | ⟨h1, h2⟩)
        · exact Or.inl h
        · exact Or.inr ⟨Or.inl rfl, hc⟩
        · exact Or.inr ⟨Or.inr h1, h2⟩
      · rintro (h | ⟨rfl | h1, h2⟩)
        · exact Or.inl (Or.inl h)
        · exact Or.inl (Or.inr rfl)
        · exact Or.inr ⟨h1, h2⟩
    · rw [if_neg hc]
      simp only [List.mem_cons]
      constructor
      · rintro (h | ⟨h1, h2⟩)
        · exact Or.inl h
        · exact Or.inr ⟨Or.inr h1, h2⟩
      · rintro (h | ⟨rfl | h1, h2⟩)
        · exact Or.inl h
        · exact absurd h2 hc
        · exact Or.inr ⟨h1, h2⟩

theorem mem_query {hsh : SpatialHash} {s e : Entity} :
    e ∈ hsh.query s ↔
      e ≠ s ∧ ∃ c ∈ getCells hsh.cellSize s.rect, e ∈ hsh.table c := by
  unfold SpatialHash.query
  simp only [List.mem_filter, List.mem_dedup, List.mem_flatMap, decide_eq_true_eq]
  tauto

theorem query_nodup (hsh : SpatialHash) (s : Entity) : (hsh.query s).Nodup :=
  (List.nodup_dedup _).filter _

theorem fdiv_mono {a b cs : Int} (hcs : 0 < cs) (h : a ≤ b) :
    Int.fdiv a cs ≤ Int.fdiv b cs := by
  rw [Int.fdiv_eq_ediv _ (le_of_lt hcs), Int.fdiv_eq_ediv _ (le_of_lt hcs)]
  exact Int.ediv_le_ediv hcs h

theorem overlap_shared_cell {cs : Int} (hcs : 0 < cs) {A B : Rect}
    (hAw : 0 ≤ A.w) (hAh : 0 ≤ A.h) (hBw : 0 ≤ B.w) (hBh : 0 ≤ B.h)
    (hcoll : A.colliderect B = true)
    (hA : getCells cs A ≠ []) (hB : getCells cs B ≠ []) :
    ∃ c, c ∈ getCells cs A ∧ c ∈ getCells cs B := by
  obtain ⟨haw, hah, hbw, hbh, h1, h2, h3, h4⟩ := colliderect_true_iff.mp hcoll
  rw [min_eq_left (le_add_of_nonneg_right hAw), max_eq_right (le_add_of_nonneg_right hBw)] at h1
  rw [min_eq_left (le_add_of_nonneg_right hAh), max_eq_right (le_add_of_nonneg_right hBh)] at h2
  rw [max_eq_right (le_add_of_nonneg_right hAw), min_eq_left (le_add_of_nonneg_right hBw)] at h3
  rw [max_eq_right (le_add_of_nonneg_right hAh), min_eq_left (le_add_of_nonneg_right hBh)] at h4
  have hAspan := hA
  have hBspan := hB
  rw [Ne, getCells_eq_nil_iff] at hAspan hBspan
  push_neg at hAspan hBspan
  simp only [Rect.left, Rect.right, Rect.top, Rect.bottom] at hAspan hBspan
  obtain ⟨hAx, hAy⟩ := hAspan
  obtain ⟨hBx, hBy⟩ := hBspan
  -- atomic consequences of the nonempty clamped spans
  have pA1 : (0 : Int) ≤ Int.fdiv SCREEN_WIDTH cs := (le_min_iff.mp (max_le_iff.mp hAx).1).1
  have pA2 : (0 : Int) ≤ Int.fdiv (A.x + A.w) cs := (le_min_iff.mp (max_le_iff.mp hAx).1).2
  have pA3 : Int.fdiv A.x cs ≤ Int.fdiv SCREEN_WIDTH cs := (le_min_iff.mp (max_le_iff.mp hAx).2).1
  have pB2 : (0 : Int) ≤ Int.fdiv (B.x + B.w) cs := (le_min_iff.mp (max_le_iff.mp hBx).1).2
  have pB3 : Int.fdiv B.x cs ≤ Int.fdiv SCREEN_WIDTH cs := (le_min_iff.mp (max_le_iff.mp hBx).2).1
  have qA1 : (0 : Int) ≤ Int.fdiv SCREEN_HEIGHT cs := (le_min_iff.mp (max_le_iff.mp hAy).1).1
  have qA2 : (0 : Int) ≤ Int.fdiv (A.y + A.h) cs := (le_min_iff.mp (max_le_iff.mp hAy).1).2
  have qA3 : Int.fdiv A.y cs ≤ Int.fdiv SCREEN_HEIGHT cs := (le_min_iff.mp (max_le_iff.mp hAy).2).1
  have qB2 : (0 : Int) ≤ Int.fdiv (B.y + B.h) cs := (le_min_iff.mp (max_le_iff.mp hBy).1).2
  have qB3 : Int.fdiv B.y cs ≤ Int.fdiv SCREEN_HEIGHT cs := (le_min_iff.mp (max_le_iff.mp hBy).2).1
  -- monotone floor-division comparisons between the four corners
  have g1 : Int.fdiv A.x cs ≤ Int.fdiv (B.x + B.w) cs := fdiv_mono hcs (le_of_lt h1)
  have g2 : Int.fdiv B.x cs ≤ Int.fdiv (A.x + A.w) cs := fdiv_mono hcs (le_of_lt h3)
  have g3 : Int.fdiv A.x cs ≤ Int.fdiv (A.x + A.w) cs := fdiv_mono hcs (le_add_of_nonneg_right hAw)
  have g4 : Int.fdiv B.x cs ≤ Int.fdiv (B.x + B.w) cs := fdiv_mono hcs (le_add_of_nonneg_right hBw)
  have g5 : Int.fdiv A.y cs ≤ Int.fdiv (B.y + B.h) cs := fdiv_mono hcs (le_of_lt h2)
  have g6 : Int.fdiv B.y cs ≤ Int.fdiv (A.y + A.h) cs := fdiv_mono hcs (le_of_lt h4)
  have g7 : Int.fdiv A.y cs ≤ Int.fdiv (A.y + A.h) cs := fdiv_mono hcs (le_add_of_nonneg_right hAh)
  have g8 : Int.fdiv B.y cs ≤ Int.fdiv (B.y + B.h) cs := fdiv_mono hcs (le_add_of_nonneg_right hBh)
  clear hA hB hAx hAy hBx hBy hcoll h1 h2 h3 h4
  refine ⟨(max (Int.fdiv A.x cs) (max (Int.fdiv B.x cs) 0),
           max (Int.fdiv A.y cs) (max (Int.fdiv B.y cs) 0)), ?_, ?_⟩ <;>
    · rw [mem_getCells]
      simp only [Rect.left, Rect.right, Rect.top, Rect.bottom]
      omega

/-! Lemmas about the cache dict operations. -/

theorem lookupKey_eq_none_iff {l : List (CKey × Bool)} {k : CKey} :
    lookupKey l k = none ↔ ∀ p ∈ l, p.1 ≠ k := by
  unfold lookupKey
  rw [Option.map_eq_none', List.find?_eq_none]
  simp only [decide_eq_true_eq]

theorem lookupKey_mem {l : List (CKey × Bool)} {k : CKey} {v : Bool}
    (h : lookupKey l k = some v) : (k, v) ∈ l := by
  unfold lookupKey at h
  rw [Option.map_eq_some'] at h
  obtain ⟨p, hp, hv⟩ := h
  have h1 := List.find?_some hp
  have h2 := List.mem_of_find?_eq_some hp
  simp only [decide_eq_true_eq] at h1
  have : p = (k, v) := by
    cases p
    simp_all
  rw [this] at h2
  exact h2

theorem mem_insertKey {l : List (CKey × Bool)} {k : CKey} {v : Bool} {p : CKey × Bool}
    (h : p ∈ insertKey l k v) : p ∈ l ∨ p = (k, v) := by
  unfold insertKey at h
  by_cases hf : (l.find? (fun q => q.1 = k)).isSome
  · rw [if_pos hf] at h
    obtain ⟨q, hq, he⟩ := List.mem_map.mp h
    by_cases hqk : q.1 = k
    · rw [if_pos hqk] at he
      exact Or.inr he.symm
    · rw [if_neg hqk] at he
      exact Or.inl (he ▸ hq)
  · rw [if_neg hf] at h
    rcases List.mem_append.mp h with h | h
    · exact Or.inl h
    · exact Or.inr (List.mem_singleton.mp h)

theorem mem_delKey {l : List (CKey × Bool)} {k : CKey} {p : CKey × Bool}
    (h : p ∈ delKey l k) : p ∈ l :=
  (List.eraseP_sublist l).subset h

theorem insertKey_of_none {l : List (CKey × Bool)} {k : CKey} (v : Bool)
    (h : lookupKey l k = none) : insertKey l k v = l ++ [(k, v)] := by
  unfold insertKey
  rw [if_neg]
  unfold lookupKey at h
  rw [Option.map_eq_none'] at h
  rw [h]
  simp

theorem find?_map_update_self (l : List (CKey × Bool)) (k : CKey) (v : Bool) :
    (l.map (fun p => if p.1 = k then (k, v) else p)).find? (fun p => p.1 = k) =
      if (l.find? (fun p => p.1 = k)).isSome then some (k, v) else none := by
  induction l with
  | nil => simp
  | cons q l ih =>
    by_cases hq : q.1 = k
    · rw [List.map_cons, if_pos hq,
        List.find?_cons_of_pos _ (by simp), List.find?_cons_of_pos _ (by simp [hq])]
      simp
    · rw [List.map_cons, if_neg hq,
        List.find?_cons_of_neg _ (by simp [hq]), List.find?_cons_of_neg _ (by simp [hq]), ih]

theorem find?_map_update_ne (l : List (CKey × Bool)) (k : CKey) (v : Bool) (k' : CKey)
    (hne : k' ≠ k) :
    (l.map (fun p => if p.1 = k then (k, v) else p)).find? (fun p => p.1 = k') =
      l.find? (fun p => p.1 = k') := by
  induction l with
  | nil => rfl
  | cons q l ih =>
    by_cases hq : q.1 = k
    · rw [List.map_cons, if_pos hq,
        List.find?_cons_of_neg _ (by simp; exact fun h => hne h.symm),
        List.find?_cons_of_neg _ (by simp [hq]; exact fun h => hne h.symm), ih]
    · rw [List.map_cons, if_neg hq]
      by_cases hq' : q.1 = k'
      · rw [List.find?_cons_of_pos _ (by simp [hq']), List.find?_cons_of_pos _ (by simp [hq'])]
      · rw [List.find?_cons_of_neg _ (by simp [hq']), List.find?_cons_of_neg _ (by simp [hq']), ih]

theorem lookupKey_insertKey_self (l : List (CKey × Bool)) (k : CKey) (v : Bool) :
    lookupKey (insertKey l k v) k = some v := by
  unfold insertKey
  by_cases hf : (l.find? (fun q => q.1 = k)).isSome
  · rw [if_pos hf]
    unfold lookupKey
    rw [find?_map_update_self, if_pos hf]
    rfl
  · rw [if_neg hf]
    unfold lookupKey
    rw [List.find?_append]
    have hnone : l.find? (fun p => decide (p.1 = k)) = none := by
      rcases h : l.find? (fun p => decide (p.1 = k)) with _ | p
      · exact h
      · rw [h] at hf; simp at hf
    rw [hnone]
    rw [List.find?_cons_of_pos _ (by simp)]
    rfl

theorem lookupKey_insertKey_ne {l : List (CKey × Bool)} {k k' : CKey} (v : Bool)
    (hne : k' ≠ k) : lookupKey (insertKey l k v) k' = lookupKey l k' := by
  unfold insertKey
  by_cases hf : (l.find? (fun q => q.1 = k)).isSome
  · rw [if_pos hf]
    unfold lookupKey
    rw [find?_map_update_ne _ _ _ _ hne]
  · rw [if_neg hf]
    unfold lookupKey
    rw [List.find?_append]
    rw [List.find?_cons_of_neg _ (by simp; exact fun h => hne h.symm)]
    simp

theorem getk_fst (c : CollisionCache) (k : CKey) :
    (c.getk k).1 = lookupKey c.cache k := by
  unfold CollisionCache.getk
  rcases h : lookupKey c.cache k with _ | v <;> simp [h]

theorem lookupKey_delKey_none {l : List (CKey × Bool)} {k k' : CKey}
    (h : lookupKey l k = none) : lookupKey (delKey l k') k = none := by
  rw [lookupKey_eq_none_iff] at h ⊢
  exact fun p hp => h p (mem_delKey hp)

theorem evictIfFull_cache_cases (c : CollisionCache) (k : CKey) :
    (c.evictIfFull k).cache = c.cache ∨
      ∃ oldest, (c.evictIfFull k).cache = delKey c.cache oldest := by
  unfold CollisionCache.evictIfFull
  by_cases h : c.cache.length ≥ c.maxSize ∧ lookupKey c.cache k = none
  · rw [if_pos h]
    rcases ho : c.accessOrder with _ | ⟨oldest, rest⟩
    · exact Or.inl rfl
    · exact Or.inr ⟨oldest, rfl⟩
  · rw [if_neg h]
    exact Or.inl rfl

theorem putk_cache_cases (c : CollisionCache) (k : CKey) (v : Bool) :
    (c.putk k v).cache = insertKey c.cache k v ∨
      ∃ oldest, (c.putk k v).cache = insertKey (delKey c.cache oldest) k v := by
  have hp : (c.putk k v).cache = insertKey (c.evictIfFull k).cache k v := rfl
  rcases evictIfFull_cache_cases c k with h | ⟨oldest, h⟩
  · rw [hp, h]
    exact Or.inl rfl
  · rw [hp, h]
    exact Or.inr ⟨oldest, rfl⟩

/-- C2 counterexample: two rectangles touching exactly along an edge.  The
spec's non-strict test reports a collision, while the code's default test
(pygame `colliderect`) does not. -/
theorem spec_C2_counterexample :
    specOverlap ⟨0, 0, 10, 10⟩ ⟨10, 0, 10, 10⟩ = true ∧
      Rect.colliderect ⟨0, 0, 10, 10⟩ ⟨10, 0, 10, 10⟩ = false := by
  constructor <;> decide

/-- C2 (amended): for rectangles of positive width and height, the default
exact test reports a collision exactly when all four inequalities hold
STRICTLY (`a.right > b.left`, `a.left < b.right`, `a.bottom > b.top`,
`a.top < b.bottom`); rectangles that merely touch along an edge or corner
are NOT counted as colliding. -/
theorem spec_C2 (a b : Rect) (haw : 0 < a.w) (hah : 0 < a.h)
    (hbw : 0 < b.w) (hbh : 0 < b.h) :
    a.colliderect b = true ↔
      a.right > b.left ∧ a.left < b.right ∧ a.bottom > b.top ∧ a.top < b.bottom := by
  rw [colliderect_true_iff]
  simp only [Rect.left, Rect.right, Rect.top, Rect.bottom]
  constructor
  · rintro ⟨h1, h2, h3, h4, h5, h6, h7, h8⟩
    omega
  · intro h
    refine ⟨by omega, by omega, by omega, by omega, ?_, ?_, ?_, ?_⟩ <;> omega

/-- Witness for C2 at the spec's bullet-versus-enemy scenario rectangles. -/
theorem spec_C2_witness :
    Rect.colliderect ⟨100, 100, 5, 10⟩ ⟨98, 105, 30, 30⟩ = true ↔
      Rect.right ⟨100, 100, 5, 10⟩ > Rect.left ⟨98, 105, 30, 30⟩ ∧
      Rect.left ⟨100, 100, 5, 10⟩ < Rect.right ⟨98, 105, 30, 30⟩ ∧
      Rect.bottom ⟨100, 100, 5, 10⟩ > Rect.top ⟨98, 105, 30, 30⟩ ∧
      Rect.top ⟨100, 100, 5, 10⟩ < Rect.bottom ⟨98, 105, 30, 30⟩ :=
  spec_C2 ⟨100, 100, 5, 10⟩ ⟨98, 105, 30, 30⟩ (by decide) (by decide) (by decide) (by decide)

/-- C3 counterexample: the cache key orders the two positions by argument,
so after `put(a, b, r)` the reversed lookup `get(b, a)` misses whenever the
two entities sit at different positions. -/
theorem spec_C3_counterexample :
    (((CollisionCache.empty 1000).put ⟨0, ⟨0, 0, 4, 4⟩⟩ ⟨1, ⟨5, 5, 4, 4⟩⟩ true).get
        ⟨1, ⟨5, 5, 4, 4⟩⟩ ⟨0, ⟨0, 0, 4, 4⟩⟩).1 = none := by
  decide

/-- C3 (amended): the cache key sorts the two entity ids but keeps the two
positions in argument order, so `put(a, b, r)` followed by `get(a, b)` in
the SAME argument order returns `r` (the rectangles not having moved), and
the reversed order `get(b, a)` addresses the same entry only when the two
entities have equal positions.  The two well-formedness hypotheses mark
the states on which Python's `put` cannot raise. -/
theorem spec_C3 (c : CollisionCache) (a b : Entity) (r : Bool)
    (hlen : c.cache.length = c.accessOrder.length) (hcap : 0 < c.maxSize) :
    (((c.put a b r).get a b).1 = some r) ∧
    (a.rect.pos = b.rect.pos → ((c.put a b r).get b a).1 = some r) := by
  have hsame : ((c.put a b r).get a b).1 = some r := by
    rw [CollisionCache.get, getk_fst]
    rcases putk_cache_cases c (cacheKey a b) r with h | ⟨oldest, h⟩ <;>
      · rw [CollisionCache.put, h]
        exact lookupKey_insertKey_self _ _ _
  refine ⟨hsame, fun hpos => ?_⟩
  have hk : cacheKey b a = cacheKey a b := by
    unfold cacheKey
    rw [hpos, Nat.min_comm, Nat.max_comm]
  rw [CollisionCache.get, getk_fst, hk, ← getk_fst, ← CollisionCache.get]
  exact hsame

/-- Witness for C3. -/
theorem spec_C3_witness :
    ((CollisionCache.empty 1000).cache.length = (CollisionCache.empty 1000).accessOrder.length) ∧
    (0 < (CollisionCache.empty 1000).maxSize) ∧
    ((((CollisionCache.empty 1000).put ⟨0, ⟨0, 0, 4, 4⟩⟩ ⟨1, ⟨5, 5, 4, 4⟩⟩ true).get
        ⟨0, ⟨0, 0, 4, 4⟩⟩ ⟨1, ⟨5, 5, 4, 4⟩⟩).1 = some true) :=
  ⟨rfl, by decide,
    (spec_C3 (CollisionCache.empty 1000) ⟨0, ⟨0, 0, 4, 4⟩⟩ ⟨1, ⟨5, 5, 4, 4⟩⟩ true rfl
      (by decide)).1⟩

/-- C4: position invalidation.  If a result is cached for `a` at position
`p1` (with `b` fixed) and `a` then moves to a different position, the next
`get(a, b)` misses — provided the cache holds no entry for the new
fingerprint, which is exactly the situation the claim describes. -/
theorem spec_C4 (c : CollisionCache) (a b a2 : Entity) (r : Bool)
    (hid : a2.eid = a.eid) (hpos : a2.rect.pos ≠ a.rect.pos)
    (hfresh : lookupKey c.cache (cacheKey a2 b) = none) :
    ((c.put a b r).get a2 b).1 = none := by
  have hk : cacheKey a2 b ≠ cacheKey a b := by
    unfold cacheKey
    intro h
    rw [Prod.ext_iff, Prod.ext_iff, Prod.ext_iff] at h
    exact hpos h.2.2.1
  rw [CollisionCache.get, getk_fst]
  rcases putk_cache_cases c (cacheKey a b) r with h | ⟨oldest, h⟩
  · rw [CollisionCache.put, h, lookupKey_insertKey_ne _ hk]
    exact hfresh
  · rw [CollisionCache.put, h, lookupKey_insertKey_ne _ hk]
    exact lookupKey_delKey_none hfresh

/-- Witness for C4: entity 0 cached against entity 1 at `(0, 0)`, then
moved to `(2, 0)`. -/
theorem spec_C4_witness :
    ((⟨0, ⟨2, 0, 4, 4⟩⟩ : Entity).eid = (⟨0, ⟨0, 0, 4, 4⟩⟩ : Entity).eid) ∧
    ((⟨0, ⟨2, 0, 4, 4⟩⟩ : Entity).rect.pos ≠ (⟨0, ⟨0, 0, 4, 4⟩⟩ : Entity).rect.pos) ∧
    (lookupKey (CollisionCache.empty 1000).cache
        (cacheKey ⟨0, ⟨2, 0, 4, 4⟩⟩ ⟨1, ⟨9, 9, 4, 4⟩⟩) = none) ∧
    ((((CollisionCache.empty 1000).put ⟨0, ⟨0, 0, 4, 4⟩⟩ ⟨1, ⟨9, 9, 4, 4⟩⟩ true).get
        ⟨0, ⟨2, 0, 4, 4⟩⟩ ⟨1, ⟨9, 9, 4, 4⟩⟩).1 = none) :=
  ⟨rfl, by decide, rfl,
    spec_C4 (CollisionCache.empty 1000) ⟨0, ⟨0, 0, 4, 4⟩⟩ ⟨1, ⟨9, 9, 4, 4⟩⟩
      ⟨0, ⟨2, 0, 4, 4⟩⟩ true rfl (by decide) rfl⟩

theorem mem_pairsOf {hits : List (Entity × List Entity)} {x y : Entity} :
    (x, y) ∈ pairsOf hits ↔ ∃ l, (x, l) ∈ hits ∧ y ∈ l := by
  unfold pairsOf
  simp only [List.mem_flatMap, List.mem_map]
  constructor
  · rintro ⟨p, hp, b, hb, he⟩
    simp only [Prod.mk.injEq] at he
    obtain ⟨he1, he2⟩ := he
    refine ⟨p.2, ?_, he2 ▸ hb⟩
    rw [← he1]
    exact hp
  · rintro ⟨l, hl, hy⟩
    exact ⟨(x, l), hl, y, hy, rfl⟩

theorem pairsOf_addHit_sub {hits : List (Entity × List Entity)} {s1 s2 x y : Entity}
    (h : (x, y) ∈ pairsOf (addHit hits s1 s2)) :
    (x, y) ∈ pairsOf hits ∨ (x = s1 ∧ y = s2) := by
  obtain ⟨l, hl, hy⟩ := mem_pairsOf.mp h
  unfold addHit at hl
  by_cases hf : (hits.find? (fun p => p.1 = s1)).isSome
  · rw [if_pos hf] at hl
    obtain ⟨q, hq, he⟩ := List.mem_map.mp hl
    obtain ⟨qk, ql⟩ := q
    by_cases hq1 : qk = s1
    · rw [if_pos hq1] at he
      simp only [Prod.mk.injEq] at he
      obtain ⟨he1, he2⟩ := he
      rw [← he2] at hy
      rcases List.mem_append.mp hy with hy | hy
      · exact Or.inl (mem_pairsOf.mpr ⟨ql, by rw [← he1]; exact hq, hy⟩)
      · exact Or.inr ⟨by rw [← he1, hq1], List.mem_singleton.mp hy⟩
    · rw [if_neg hq1] at he
      exact Or.inl (mem_pairsOf.mpr ⟨l, he ▸ hq, hy⟩)
  · rw [if_neg hf] at hl
    rcases List.mem_append.mp hl with hl | hl
    · exact Or.inl (mem_pairsOf.mpr ⟨l, hl, hy⟩)
    · rw [List.mem_singleton] at hl
      simp only [Prod.mk.injEq] at hl
      obtain ⟨h1, h2⟩ := hl
      rw [h2] at hy
      exact Or.inr ⟨h1, List.mem_singleton.mp hy⟩

theorem pairsOf_addHit_self (hits : List (Entity × List Entity)) (s1 s2 : Entity) :
    (s1, s2) ∈ pairsOf (addHit hits s1 s2) := by
  unfold addHit
  by_cases hf : (hits.find? (fun p => p.1 = s1)).isSome
  · rw [if_pos hf]
    rw [Option.isSome_iff_exists] at hf
    obtain ⟨q, hq⟩ := hf
    have hqm := List.mem_of_find?_eq_some hq
    have hq1 := List.find?_some hq
    simp only [decide_eq_true_eq] at hq1
    refine mem_pairsOf.mpr ⟨q.2 ++ [s2], ?_, List.mem_append_right _ (List.mem_singleton_self _)⟩
    refine List.mem_map.mpr ⟨q, hqm, ?_⟩
    simp [hq1]
  · rw [if_neg hf]
    exact mem_pairsOf.mpr ⟨[s2], List.mem_append_right _ (List.mem_singleton_self _),
      List.mem_singleton_self _⟩

theorem pairsOf_addHit_mono {hits : List (Entity × List Entity)} {s1 s2 x y : Entity}
    (h : (x, y) ∈ pairsOf hits) : (x, y) ∈ pairsOf (addHit hits s1 s2) := by
  obtain ⟨l, hl, hy⟩ := mem_pairsOf.mp h
  unfold addHit
  by_cases hf : (hits.find? (fun p => p.1 = s1)).isSome
  · rw [if_pos hf]
    refine mem_pairsOf.mpr ?_
    by_cases hx : x = s1
    · refine ⟨l ++ [s2], ?_, List.mem_append_left _ hy⟩
      refine List.mem_map.mpr ⟨(x, l), hl, ?_⟩
      simp [hx]
    · refine ⟨l, ?_, hy⟩
      refine List.mem_map.mpr ⟨(x, l), hl, ?_⟩
      simp [hx]
  · rw [if_neg hf]
    exact mem_pairsOf.mpr ⟨l, List.mem_append_left _ hl, hy⟩

theorem stepCandidate_hits (u : Bool) (pred : Entity → Entity → Bool) (dk1 dk2 : Bool)
    (s1 : Entity) (st : ScanState) (s2 : Entity) :
    (stepCandidate u pred dk1 dk2 s1 st s2).hits = addHit st.hits s1 s2 ∨
      (stepCandidate u pred dk1 dk2 s1 st s2).hits = st.hits := by
  unfold stepCandidate
  by_cases hr : (resolveCollision u pred st.cache s1 s2).1 = true
  · rw [if_pos hr]
    exact Or.inl rfl
  · rw [if_neg hr]
    exact Or.inr rfl

theorem candFold_pairs_sub (u : Bool) (pred : Entity → Entity → Bool) (dk1 dk2 : Bool)
    (s1 : Entity) :
    ∀ (cands : List Entity) (st : ScanState) {x y : Entity},
      (x, y) ∈ pairsOf ((cands.foldl (stepCandidate u pred dk1 dk2 s1) st).hits) →
      (x, y) ∈ pairsOf st.hits ∨ (x = s1 ∧ y ∈ cands) := by
  intro cands
  induction cands with
  | nil =>
    intro st x y h
    exact Or.inl h
  | cons c cs ih =>
    intro st x y h
    rw [List.foldl_cons] at h
    rcases ih _ h with h' | ⟨rfl, hy⟩
    · rcases stepCandidate_hits u pred dk1 dk2 s1 st c with he | he
      · rw [he] at h'
        rcases pairsOf_addHit_sub h' with h3 | ⟨rfl, rfl⟩
        · exact Or.inl h3
        · exact Or.inr ⟨rfl, List.mem_cons_self _ _⟩
      · rw [he] at h'
        exact Or.inl h'
    · exact Or.inr ⟨rfl, List.mem_cons_of_mem _ hy⟩

theorem groupFold_pairs_sub (hsh : SpatialHash) (u : Bool) (pred : Entity → Entity → Bool)
    (dk1 dk2 : Bool) :
    ∀ (g1 : List Entity) (st : ScanState) {x y : Entity},
      (x, y) ∈ pairsOf ((g1.foldl (scanSprite hsh u pred dk1 dk2) st).hits) →
      (x, y) ∈ pairsOf st.hits ∨ (x ∈ g1 ∧ y ∈ hsh.query x) := by
  intro g1
  induction g1 with
  | nil =>
    intro st x y h
    exact Or.inl h
  | cons s1 ss ih =>
    intro st x y h
    rw [List.foldl_cons] at h
    rcases ih _ h with h' | ⟨hx, hy⟩
    · unfold scanSprite at h'
      rcases candFold_pairs_sub u pred dk1 dk2 s1 _ _ h' with h2 | ⟨rfl, hy⟩
      · exact Or.inl h2
      · exact Or.inr ⟨List.mem_cons_self _ _, hy⟩
    · exact Or.inr ⟨List.mem_cons_of_mem _ hx, hy⟩

theorem groupcollide_hits_eq (cellSize : Int) (u : Bool) (c0 : CollisionCache)
    (pred : Entity → Entity → Bool) (g1 g2 : List Entity) (dk1 dk2 : Bool) :
    (groupcollide cellSize u c0 pred g1 g2 dk1 dk2).hits =
      (g1.foldl
        (scanSprite (g2.foldl SpatialHash.insert (SpatialHash.empty cellSize)) u pred dk1 dk2)
        ⟨c0, [], [], []⟩).hits := rfl

/-- Pairs reported by `groupcollide` always come from a group-1 sprite and
one of its spatial-hash candidates, whatever the cache state, predicate
and kill flags. -/
theorem groupcollide_pairs_sub {cellSize : Int} {u : Bool} {c0 : CollisionCache}
    {pred : Entity → Entity → Bool} {g1 g2 : List Entity} {dk1 dk2 : Bool} {x y : Entity}
    (h : (x, y) ∈ pairsOf (groupcollide cellSize u c0 pred g1 g2 dk1 dk2).hits) :
    x ∈ g1 ∧ y ∈ (g2.foldl SpatialHash.insert (SpatialHash.empty cellSize)).query x := by
  rw [groupcollide_hits_eq] at h
  rcases groupFold_pairs_sub _ u pred dk1 dk2 g1 _ h with h' | h'
  · exact absurd h' (by simp [pairsOf])
  · exact h'

theorem stepSpriteCandidate_shape (u : Bool) (pred : Entity → Entity → Bool) (dk : Bool)
    (s : Entity) (st : SpriteScanState) (c : Entity) :
    ((stepSpriteCandidate u pred dk s st c).collisions = st.collisions ++ [c] ∧
      (stepSpriteCandidate u pred dk s st c).kills = st.kills ++ (if dk then [c] else [])) ∨
    ((stepSpriteCandidate u pred dk s st c).collisions = st.collisions ∧
      (stepSpriteCandidate u pred dk s st c).kills = st.kills) := by
  unfold stepSpriteCandidate
  by_cases hr : (resolveCollision u pred st.cache s c).1 = true
  · rw [if_pos hr]
    refine Or.inl ⟨rfl, ?_⟩
    by_cases hdk : dk = true
    · rw [if_pos hdk, if_pos hdk]
    · rw [if_neg hdk, if_neg hdk, List.append_nil]
  · rw [if_neg hr]
    exact Or.inr ⟨rfl, rfl⟩

theorem spriteFold_shape (u : Bool) (pred : Entity → Entity → Bool) (dk : Bool) (s : Entity) :
    ∀ (cands : List Entity) (st : SpriteScanState),
      ∃ sub : List Entity, sub.Sublist cands ∧
        (cands.foldl (stepSpriteCandidate u pred dk s) st).collisions = st.collisions ++ sub ∧
        (cands.foldl (stepSpriteCandidate u pred dk s) st).kills =
          st.kills ++ (if dk then sub else []) := by
  intro cands
  induction cands with
  | nil =>
    intro st
    refine ⟨[], List.nil_sublist _, by simp, ?_⟩
    by_cases hdk : dk = true <;> simp [hdk]
  | cons c cs ih =>
    intro st
    rw [List.foldl_cons]
    obtain ⟨sub, hsub, hcol, hkil⟩ := ih (stepSpriteCandidate u pred dk s st c)
    rcases stepSpriteCandidate_shape u pred dk s st c with ⟨he1, he2⟩ | ⟨he1, he2⟩
    · refine ⟨c :: sub, List.Sublist.cons₂ _ hsub, ?_, ?_⟩
      · rw [hcol, he1, List.append_assoc]
        rfl
      · rw [hkil, he2]
        by_cases hdk : dk = true
        · rw [if_pos hdk, if_pos hdk, if_pos hdk, List.append_assoc]
          rfl
        · rw [if_neg hdk, if_neg hdk, if_neg hdk, List.append_nil, List.append_nil]
    · refine ⟨sub, List.Sublist.cons _ hsub, ?_, ?_⟩
      · rw [hcol, he1]
      · rw [hkil, he2]

theorem spritecollide_collisions_eq (cellSize : Int) (u : Bool) (c0 : CollisionCache)
    (pred : Entity → Entity → Bool) (s : Entity) (g : List Entity) (dk : Bool) :
    (spritecollide cellSize u c0 pred s g dk).collisions =
      (((g.foldl SpatialHash.insert (SpatialHash.empty cellSize)).query s).foldl
        (stepSpriteCandidate u pred dk s) ⟨c0, [], []⟩).collisions := rfl

theorem spritecollide_kills_eq (cellSize : Int) (u : Bool) (c0 : CollisionCache)
    (pred : Entity → Entity → Bool) (s : Entity) (g : List Entity) (dk : Bool) :
    (spritecollide cellSize u c0 pred s g dk).kills =
      (((g.foldl SpatialHash.insert (SpatialHash.empty cellSize)).query s).foldl
        (stepSpriteCandidate u pred dk s) ⟨c0, [], []⟩).kills := rfl

/-- C9: self-exclusion.  A spatial-hash `query` never returns the queried
sprite itself — the candidate set is built and then the sprite discarded —
and consequently `spritecollide_optimized` never reports a sprite as
colliding with itself, whatever group it is a member of, whatever the
cache state, predicate, cell size and kill flag. -/
theorem spec_C9 :
    (∀ (hsh : SpatialHash) (s : Entity), s ∉ hsh.query s) ∧
    (∀ (cellSize : Int) (u : Bool) (c0 : CollisionCache) (pred : Entity → Entity → Bool)
        (s : Entity) (g : List Entity) (dk : Bool),
        s ∉ (spritecollide cellSize u c0 pred s g dk).collisions) := by
  have hq : ∀ (hsh : SpatialHash) (s : Entity), s ∉ hsh.query s := by
    intro hsh s hmem
    exact absurd rfl (mem_query.mp hmem).1
  refine ⟨hq, ?_⟩
  intro cs u c0 pred s g dk hmem
  rw [spritecollide_collisions_eq] at hmem
  obtain ⟨sub, hsub, hcol, _⟩ :=
    spriteFold_shape u pred dk s ((g.foldl SpatialHash.insert (SpatialHash.empty cs)).query s)
      ⟨c0, [], []⟩
  rw [hcol] at hmem
  rw [List.nil_append] at hmem
  exact hq _ s (hsub.subset hmem)

/-- C8: clamping safety.  Whatever the rectangle — negative or overflowing
coordinates included — every cell key it spans lies in
`[0, SCREEN_WIDTH // cellSize] × [0, SCREEN_HEIGHT // cellSize]`, and a
rectangle of nonnegative size that still touches the screen area is
inserted into at least one cell rather than silently dropped. -/
theorem spec_C8 (cs : Int) (hcs : 0 < cs) :
    (∀ (r : Rect), ∀ p ∈ getCells cs r,
        0 ≤ p.1 ∧ p.1 ≤ Int.fdiv SCREEN_WIDTH cs ∧
        0 ≤ p.2 ∧ p.2 ≤ Int.fdiv SCREEN_HEIGHT cs) ∧
    (∀ (hsh : SpatialHash) (e : Entity), hsh.cellSize = cs →
        0 ≤ e.rect.w → 0 ≤ e.rect.h →
        0 ≤ e.rect.right → e.rect.left ≤ SCREEN_WIDTH →
        0 ≤ e.rect.bottom → e.rect.top ≤ SCREEN_HEIGHT →
        getCells cs e.rect ≠ [] ∧ ∃ c, e ∈ (hsh.insert e).table c) := by
  constructor
  · intro r p hp
    have := mem_getCells.mp hp
    omega
  · intro hsh e hcell hw hh hr hl hb ht
    simp only [Rect.left, Rect.right, Rect.top, Rect.bottom] at hr hl hb ht
    have hMW : (0 : Int) ≤ Int.fdiv SCREEN_WIDTH cs :=
      Int.fdiv_nonneg (by decide) (le_of_lt hcs)
    have hMH : (0 : Int) ≤ Int.fdiv SCREEN_HEIGHT cs :=
      Int.fdiv_nonneg (by decide) (le_of_lt hcs)
    have hx0 : (0 : Int) ≤ Int.fdiv (e.rect.x + e.rect.w) cs :=
      Int.fdiv_nonneg hr (le_of_lt hcs)
    have hy0 : (0 : Int) ≤ Int.fdiv (e.rect.y + e.rect.h) cs :=
      Int.fdiv_nonneg hb (le_of_lt hcs)
    have hxW : Int.fdiv e.rect.x cs ≤ Int.fdiv SCREEN_WIDTH cs := fdiv_mono hcs hl
    have hyH : Int.fdiv e.rect.y cs ≤ Int.fdiv SCREEN_HEIGHT cs := fdiv_mono hcs ht
    have hxx : Int.fdiv e.rect.x cs ≤ Int.fdiv (e.rect.x + e.rect.w) cs :=
      fdiv_mono hcs (by omega)
    have hyy : Int.fdiv e.rect.y cs ≤ Int.fdiv (e.rect.y + e.rect.h) cs :=
      fdiv_mono hcs (by omega)
    have hne : getCells cs e.rect ≠ [] := by
      rw [Ne, getCells_eq_nil_iff]
      simp only [Rect.left, Rect.right, Rect.top, Rect.bottom]
      omega
    refine ⟨hne, ?_⟩
    obtain ⟨c, hc⟩ := List.exists_mem_of_ne_nil _ hne
    refine ⟨c, ?_⟩
    unfold SpatialHash.insert
    rw [hcell]
    simp only [if_pos hc]
    exact List.mem_append_right _ (List.mem_singleton_self _)

/-- Witness for C8: cell size 64, an entity whose rectangle pokes off the
top-left corner of the screen. -/
theorem spec_C8_witness :
    ((0 : Int) < 64) ∧
    (getCells 64 (⟨-10, -10, 30, 30⟩ : Rect) ≠ [] ∧
      ∃ c, (⟨5, ⟨-10, -10, 30, 30⟩⟩ : Entity) ∈
        ((SpatialHash.empty 64).insert ⟨5, ⟨-10, -10, 30, 30⟩⟩).table c) :=
  ⟨by decide,
    (spec_C8 64 (by decide)).2 (SpatialHash.empty 64) ⟨5, ⟨-10, -10, 30, 30⟩⟩ rfl
      (by decide) (by decide) (by decide) (by decide) (by decide) (by decide)⟩

/-- The far-off-screen condition of claim C10, taken verbatim:
`rect.right < 0`, or `rect.bottom < 0`, or `rect.left // cellSize`
beyond `SCREEN_WIDTH // cellSize`, or `rect.top // cellSize` beyond
`SCREEN_HEIGHT // cellSize`. -/
def offGrid (cs : Int) (r : Rect) : Prop :=
  r.right < 0 ∨ r.bottom < 0 ∨
    Int.fdiv SCREEN_WIDTH cs < Int.fdiv r.left cs ∨
    Int.fdiv SCREEN_HEIGHT cs < Int.fdiv r.top cs

theorem offGrid_getCells_nil {cs : Int} (hcs : 0 < cs) {r : Rect} (h : offGrid cs r) :
    getCells cs r = [] := by
  rw [getCells_eq_nil_iff]
  rcases h with h | h | h | h
  · have : Int.fdiv r.right cs < 0 := Int.fdiv_neg' h hcs
    left
    omega
  · have : Int.fdiv r.bottom cs < 0 := Int.fdiv_neg' h hcs
    right
    omega
  · left
    omega
  · right
    omega

/-- C10: an entity far enough outside the screen gets an empty cell span,
so `insert` leaves the table unchanged, `query` on it returns nothing, and
no pair reported by `groupcollide` involves such an entity — even when its
rectangle geometrically overlaps another entity's rectangle off-screen. -/
theorem spec_C10 (cs : Int) (hcs : 0 < cs) :
    (∀ r : Rect, offGrid cs r → getCells cs r = []) ∧
    (∀ (hsh : SpatialHash) (e : Entity), hsh.cellSize = cs → offGrid cs e.rect →
        (hsh.insert e).table = hsh.table ∧ hsh.query e = []) ∧
    (∀ (u : Bool) (c0 : CollisionCache) (pred : Entity → Entity → Bool)
        (g1 g2 : List Entity) (dk1 dk2 : Bool) (a b : Entity),
        (a, b) ∈ pairsOf (groupcollide cs u c0 pred g1 g2 dk1 dk2).hits →
        ¬offGrid cs a.rect ∧ ¬offGrid cs b.rect) := by
  refine ⟨fun r h => offGrid_getCells_nil hcs h, ?_, ?_⟩
  · intro hsh e hcell hoff
    have hnil : getCells hsh.cellSize e.rect = [] := by
      rw [hcell]
      exact offGrid_getCells_nil hcs hoff
    constructor
    · funext c
      unfold SpatialHash.insert
      rw [hnil]
      simp
    · unfold SpatialHash.query
      rw [hnil]
      rfl
  · intro u c0 pred g1 g2 dk1 dk2 a b hmem
    obtain ⟨ha, hb⟩ := groupcollide_pairs_sub hmem
    obtain ⟨hne, c, hc, hbc⟩ := mem_query.mp hb
    have hcells := foldl_insert_cellSize g2 (SpatialHash.empty cs)
    constructor
    · intro hoff
      have : getCells (g2.foldl SpatialHash.insert (SpatialHash.empty cs)).cellSize a.rect = [] := by
        rw [hcells]
        exact offGrid_getCells_nil hcs hoff
      rw [this] at hc
      exact absurd hc (List.not_mem_nil _)
    · intro hoff
      rcases (mem_foldl_insert_table g2 (SpatialHash.empty cs) c b).mp hbc with h0 | ⟨_, hcb⟩
      · exact absurd h0 (List.not_mem_nil _)
      · have : getCells (SpatialHash.empty cs).cellSize b.rect = [] :=
          offGrid_getCells_nil hcs hoff
        rw [this] at hcb
        exact absurd hcb (List.not_mem_nil _)

/-- Witness for C10: cell size 64 and a fully off-screen rectangle. -/
theorem spec_C10_witness :
    ((0 : Int) < 64) ∧ getCells 64 (⟨-100, 50, 10, 10⟩ : Rect) = [] :=
  ⟨by decide, (spec_C10 64 (by decide)).1 ⟨-100, 50, 10, 10⟩ (Or.inl (by decide))⟩

theorem addKill_nodup {l : List Entity} (s : Entity) (h : l.Nodup) : (addKill l s).Nodup := by
  unfold addKill
  by_cases hs : s ∈ l
  · rw [if_pos hs]
    exact h
  · rw [if_neg hs]
    simp [List.nodup_append, h, hs]

theorem stepCandidate_kills_nodup (u : Bool) (pred : Entity → Entity → Bool)
    (dk1 dk2 : Bool) (s1 : Entity) (st : ScanState) (s2 : Entity)
    (h1 : st.kills1.Nodup) (h2 : st.kills2.Nodup) :
    (stepCandidate u pred dk1 dk2 s1 st s2).kills1.Nodup ∧
      (stepCandidate u pred dk1 dk2 s1 st s2).kills2.Nodup := by
  unfold stepCandidate
  by_cases hr : (resolveCollision u pred st.cache s1 s2).1 = true
  · rw [if_pos hr]
    constructor
    · by_cases hdk : dk1 = true
      · rw [hdk]
        exact addKill_nodup s1 h1
      · simp only [Bool.not_eq_true] at hdk
        rw [hdk]
        exact h1
    · by_cases hdk : dk2 = true
      · rw [hdk]
        exact addKill_nodup s2 h2
      · simp only [Bool.not_eq_true] at hdk
        rw [hdk]
        exact h2
  · rw [if_neg hr]
    exact ⟨h1, h2⟩

theorem candFold_kills_nodup (u : Bool) (pred : Entity → Entity → Bool)
    (dk1 dk2 : Bool) (s1 : Entity) :
    ∀ (cands : List Entity) (st : ScanState),
      st.kills1.Nodup → st.kills2.Nodup →
      ((cands.foldl (stepCandidate u pred dk1 dk2 s1) st).kills1.Nodup ∧
        (cands.foldl (stepCandidate u pred dk1 dk2 s1) st).kills2.Nodup) := by
  intro cands
  induction cands with
  | nil => exact fun st h1 h2 => ⟨h1, h2⟩
  | cons c cs ih =>
    intro st h1 h2
    rw [List.foldl_cons]
    obtain ⟨h1', h2'⟩ := stepCandidate_kills_nodup u pred dk1 dk2 s1 st c h1 h2
    exact ih _ h1' h2'

theorem groupFold_kills_nodup (hsh : SpatialHash) (u : Bool)
    (pred : Entity → Entity → Bool) (dk1 dk2 : Bool) :
    ∀ (g1 : List Entity) (st : ScanState),
      st.kills1.Nodup → st.kills2.Nodup →
      ((g1.foldl (scanSprite hsh u pred dk1 dk2) st).kills1.Nodup ∧
        (g1.foldl (scanSprite hsh u pred dk1 dk2) st).kills2.Nodup) := by
  intro g1
  induction g1 with
  | nil => exact fun st h1 h2 => ⟨h1, h2⟩
  | cons s1 ss ih =>
    intro st h1 h2
    rw [List.foldl_cons]
    obtain ⟨h1', h2'⟩ := candFold_kills_nodup u pred dk1 dk2 s1 (hsh.query s1) st h1 h2
    exact ih _ h1' h2'

theorem stepCandidate_cache_hits (u : Bool) (pred : Entity → Entity → Bool)
    (dk1 dk2 dk1' dk2' : Bool) (s1 : Entity) (st st' : ScanState) (s2 : Entity)
    (hc : st.cache = st'.cache) (hh : st.hits = st'.hits) :
    (stepCandidate u pred dk1 dk2 s1 st s2).cache =
        (stepCandidate u pred dk1' dk2' s1 st' s2).cache ∧
      (stepCandidate u pred dk1 dk2 s1 st s2).hits =
        (stepCandidate u pred dk1' dk2' s1 st' s2).hits := by
  unfold stepCandidate
  rw [← hc, ← hh]
  by_cases hr : (resolveCollision u pred st.cache s1 s2).1 = true
  · rw [if_pos hr, if_pos hr]
    exact ⟨rfl, rfl⟩
  · rw [if_neg hr, if_neg hr]
    exact ⟨rfl, rfl⟩

theorem candFold_cache_hits (u : Bool) (pred : Entity → Entity → Bool)
    (dk1 dk2 dk1' dk2' : Bool) (s1 : Entity) :
    ∀ (cands : List Entity) (st st' : ScanState),
      st.cache = st'.cache → st.hits = st'.hits →
      ((cands.foldl (stepCandidate u pred dk1 dk2 s1) st).cache =
          (cands.foldl (stepCandidate u pred dk1' dk2' s1) st').cache ∧
        (cands.foldl (stepCandidate u pred dk1 dk2 s1) st).hits =
          (cands.foldl (stepCandidate u pred dk1' dk2' s1) st').hits) := by
  intro cands
  induction cands with
  | nil => exact fun st st' hc hh => ⟨hc, hh⟩
  | cons c cs ih =>
    intro st st' hc hh
    rw [List.foldl_cons, List.foldl_cons]
    obtain ⟨hc', hh'⟩ := stepCandidate_cache_hits u pred dk1 dk2 dk1' dk2' s1 st st' c hc hh
    exact ih _ _ hc' hh'

theorem groupFold_cache_hits (hsh : SpatialHash) (u : Bool)
    (pred : Entity → Entity → Bool) (dk1 dk2 dk1' dk2' : Bool) :
    ∀ (g1 : List Entity) (st st' : ScanState),
      st.cache = st'.cache → st.hits = st'.hits →
      ((g1.foldl (scanSprite hsh u pred dk1 dk2) st).cache =
          (g1.foldl (scanSprite hsh u pred dk1' dk2') st').cache ∧
        (g1.foldl (scanSprite hsh u pred dk1 dk2) st).hits =
          (g1.foldl (scanSprite hsh u pred dk1' dk2') st').hits) := by
  intro g1
  induction g1 with
  | nil => exact fun st st' hc hh => ⟨hc, hh⟩
  | cons s1 ss ih =>
    intro st st' hc hh
    rw [List.foldl_cons, List.foldl_cons]
    obtain ⟨hc', hh'⟩ :=
      candFold_cache_hits u pred dk1 dk2 dk1' dk2' s1 (hsh.query s1) st st' hc hh
    exact ih _ _ hc' hh'

theorem stepCandidate_kills_false (u : Bool) (pred : Entity → Entity → Bool)
    (s1 : Entity) (st : ScanState) (s2 : Entity) :
    (stepCandidate u pred false false s1 st s2).kills1 = st.kills1 ∧
      (stepCandidate u pred false false s1 st s2).kills2 = st.kills2 := by
  unfold stepCandidate
  by_cases hr : (resolveCollision u pred st.cache s1 s2).1 = true
  · rw [if_pos hr]
    exact ⟨rfl, rfl⟩
  · rw [if_neg hr]
    exact ⟨rfl, rfl⟩

theorem candFold_kills_false (u : Bool) (pred : Entity → Entity → Bool) (s1 : Entity) :
    ∀ (cands : List Entity) (st : ScanState),
      (cands.foldl (stepCandidate u pred false false s1) st).kills1 = st.kills1 ∧
        (cands.foldl (stepCandidate u pred false false s1) st).kills2 = st.kills2 := by
  intro cands
  induction cands with
  | nil => exact fun st => ⟨rfl, rfl⟩
  | cons c cs ih =>
    intro st
    rw [List.foldl_cons]
    obtain ⟨h1, h2⟩ := ih (stepCandidate u pred false false s1 st c)
    obtain ⟨h1', h2'⟩ := stepCandidate_kills_false u pred s1 st c
    exact ⟨h1.trans h1', h2.trans h2'⟩

theorem groupFold_kills_false (hsh : SpatialHash) (u : Bool)
    (pred : Entity → Entity → Bool) :
    ∀ (g1 : List Entity) (st : ScanState),
      (g1.foldl (scanSprite hsh u pred false false) st).kills1 = st.kills1 ∧
        (g1.foldl (scanSprite hsh u pred false false) st).kills2 = st.kills2 := by
  intro g1
  induction g1 with
  | nil => exact fun st => ⟨rfl, rfl⟩
  | cons s1 ss ih =>
    intro st
    rw [List.foldl_cons]
    obtain ⟨h1, h2⟩ := ih (scanSprite hsh u pred false false st s1)
    obtain ⟨h1', h2'⟩ := candFold_kills_false u pred s1 (hsh.query s1) st
    exact ⟨h1.trans h1', h2.trans h2'⟩

theorem stepSpriteCandidate_cache_collisions (u : Bool) (pred : Entity → Entity → Bool)
    (dk dk' : Bool) (s : Entity) (st st' : SpriteScanState) (c : Entity)
    (hc : st.cache = st'.cache) (hl : st.collisions = st'.collisions) :
    (stepSpriteCandidate u pred dk s st c).cache =
        (stepSpriteCandidate u pred dk' s st' c).cache ∧
      (stepSpriteCandidate u pred dk s st c).collisions =
        (stepSpriteCandidate u pred dk' s st' c).collisions := by
  unfold stepSpriteCandidate
  rw [← hc, ← hl]
  by_cases hr : (resolveCollision u pred st.cache s c).1 = true
  · rw [if_pos hr, if_pos hr]
    exact ⟨rfl, rfl⟩
  · rw [if_neg hr, if_neg hr]
    exact ⟨rfl, rfl⟩

theorem spriteFold_cache_collisions (u : Bool) (pred : Entity → Entity → Bool)
    (dk dk' : Bool) (s : Entity) :
    ∀ (cands : List Entity) (st st' : SpriteScanState),
      st.cache = st'.cache → st.collisions = st'.collisions →
      ((cands.foldl (stepSpriteCandidate u pred dk s) st).cache =
          (cands.foldl (stepSpriteCandidate u pred dk' s) st').cache ∧
        (cands.foldl (stepSpriteCandidate u pred dk s) st).collisions =
          (cands.foldl (stepSpriteCandidate u pred dk' s) st').collisions) := by
  intro cands
  induction cands with
  | nil => exact fun st st' hc hl => ⟨hc, hl⟩
  | cons c cs ih =>
    intro st st' hc hl
    rw [List.foldl_cons, List.foldl_cons]
    obtain ⟨hc', hl'⟩ := stepSpriteCandidate_cache_collisions u pred dk dk' s st st' c hc hl
    exact ih _ _ hc' hl'

/-- Entity 1 (a 10x10 square) at its first-frame position `(0, 0)`. -/
def c7_bigFirst : Entity := ⟨1, ⟨0, 0, 10, 10⟩⟩

/-- Entity 2 (a 1x1 square) at its first-frame position `(5, 5)`. -/
def c7_smallFirst : Entity := ⟨2, ⟨5, 5, 1, 1⟩⟩

/-- Entity 1 after moving to `(5, 5)` — the position entity 2 vacated. -/
def c7_bigSecond : Entity := ⟨1, ⟨5, 5, 10, 10⟩⟩

/-- Entity 2 after moving to `(0, 0)` — the position entity 1 vacated. -/
def c7_smallSecond : Entity := ⟨2, ⟨0, 0, 1, 1⟩⟩

/-- The cache left behind by the first frame's query. -/
def c7_cacheAfterFirst : CollisionCache :=
  (groupcollide 64 true (CollisionCache.empty 1000) defaultCollided
    [c7_bigFirst] [c7_smallFirst] false false).cache

/-- C7 is violated by the code: the cache key sorts the two ids but keeps
the positions in argument order, so when the two entities exchange
positions between frames the second frame's lookup hits the first frame's
entry.  Frame 1: the 10x10 entity at `(0, 0)` overlaps the 1x1 entity at
`(5, 5)` and `true` is cached.  Frame 2: the entities have swapped
positions and do not overlap, yet the cached detector still reports a
collision, while the same query through a cleared cache — or with
`use_cache=False` — reports none.  So the cache IS a correctness
dependency, contradicting the claim. -/
theorem spec_C7_bug :
    pairsOf (groupcollide 64 true (CollisionCache.empty 1000) defaultCollided
        [c7_bigFirst] [c7_smallFirst] false false).hits = [(c7_bigFirst, c7_smallFirst)] ∧
    defaultCollided c7_smallSecond c7_bigSecond = false ∧
    pairsOf (groupcollide 64 true c7_cacheAfterFirst defaultCollided
        [c7_smallSecond] [c7_bigSecond] false false).hits = [(c7_smallSecond, c7_bigSecond)] ∧
    pairsOf (groupcollide 64 true (CollisionCache.empty 1000) defaultCollided
        [c7_smallSecond] [c7_bigSecond] false false).hits = [] ∧
    pairsOf (groupcollide 64 false (CollisionCache.empty 1000) defaultCollided
        [c7_smallSecond] [c7_bigSecond] false false).hits = [] := by
  refine ⟨?_, ?_, ?_, ?_, ?_⟩ <;> decide

theorem lookup_mapkeys_none {ks : List CKey} {v : CKey → Bool} {k : CKey} (h : k ∉ ks) :
    lookupKey (ks.map (fun k => (k, v k))) k = none := by
  rw [lookupKey_eq_none_iff]
  intro p hp
  obtain ⟨k0, hk0, rfl⟩ := List.mem_map.mp hp
  intro he
  have hke : k0 = k := he
  rw [hke] at hk0
  exact h hk0

theorem lookup_mapkeys_mem {ks : List CKey} {v : CKey → Bool} {ki : CKey} (h : ki ∈ ks) :
    lookupKey (ks.map (fun k => (k, v k))) ki = some (v ki) := by
  induction ks with
  | nil => exact absurd h (List.not_mem_nil _)
  | cons k ks ih =>
    by_cases hk : k = ki
    · unfold lookupKey
      rw [List.map_cons, List.find?_cons_of_pos _ (by simp [hk]), hk]
      rfl
    · unfold lookupKey
      rw [List.map_cons, List.find?_cons_of_neg _ (by simp [hk])]
      exact ih ((List.mem_cons.mp h).resolve_left (fun he => hk he.symm))

theorem mapkeys_fst (ks : List CKey) (v : CKey → Bool) :
    (ks.map (fun k => (k, v k))).map Prod.fst = ks := by
  simp [List.map_map, Function.comp_def]

theorem evictIfFull_of_not_full {c : CollisionCache} (k : CKey)
    (h : c.cache.length < c.maxSize) : c.evictIfFull k = c := by
  unfold CollisionCache.evictIfFull
  rw [if_neg]
  intro hc
  omega

theorem evictIfFull_maxSize (c : CollisionCache) (k : CKey) :
    (c.evictIfFull k).maxSize = c.maxSize := by
  unfold CollisionCache.evictIfFull
  by_cases h : c.cache.length ≥ c.maxSize ∧ lookupKey c.cache k = none
  · rw [if_pos h]
    rcases ho : c.accessOrder with _ | ⟨oldest, rest⟩
    · rfl
    · rfl
  · rw [if_neg h]

theorem putk_maxSize (c : CollisionCache) (k : CKey) (v : Bool) :
    (c.putk k v).maxSize = c.maxSize :=
  evictIfFull_maxSize c k

theorem putk_full_fresh (c : CollisionCache) (k' : CKey) (v' : Bool) (o : CKey)
    (rest : List CKey) (hfull : c.cache.length ≥ c.maxSize)
    (hfresh : lookupKey c.cache k' = none) (ho : c.accessOrder = o :: rest) :
    (c.putk k' v').cache = insertKey (delKey c.cache o) k' v' ∧
      (c.putk k' v').accessOrder = rest.erase k' ++ [k'] := by
  have hev : c.evictIfFull k' =
      { c with cache := delKey c.cache o, accessOrder := rest } := by
    unfold CollisionCache.evictIfFull
    rw [if_pos ⟨hfull, hfresh⟩, ho]
  constructor
  · show insertKey (c.evictIfFull k').cache k' v' = _
    rw [hev]
  · show (c.evictIfFull k').accessOrder.erase k' ++ [k'] = _
    rw [hev]

/-- A sequence of `put` calls, one per key, with value `v k` for key `k` —
the claim's "inserting N+1 distinct pair-keys via put". -/
def fillCache (c : CollisionCache) (ks : List CKey) (v : CKey → Bool) : CollisionCache :=
  ks.foldl (fun c k => c.putk k (v k)) c

theorem fillCache_spec :
    ∀ (ks l : List CKey) (v : CKey → Bool) (c : CollisionCache),
      c.cache = l.map (fun k => (k, v k)) → c.accessOrder = l →
      (l ++ ks).Nodup → l.length + ks.length ≤ c.maxSize →
      (fillCache c ks v).cache = (l ++ ks).map (fun k => (k, v k)) ∧
        (fillCache c ks v).accessOrder = l ++ ks ∧
        (fillCache c ks v).maxSize = c.maxSize := by
  intro ks
  induction ks with
  | nil =>
    intro l v c hc ho _ _
    exact ⟨by rw [List.append_nil]; exact hc, by rw [List.append_nil]; exact ho, rfl⟩
  | cons k ks ih =>
    intro l v c hc ho hnd hlen
    have hkl : k ∉ l := by
      have := (List.nodup_append.mp hnd).2.2
      intro hk
      exact this hk (List.mem_cons_self _ _)
    have hlookup : lookupKey c.cache k = none := by
      rw [hc]
      exact lookup_mapkeys_none hkl
    have hnotfull : c.cache.length < c.maxSize := by
      rw [hc, List.length_map]
      simp only [List.length_append, List.length_cons] at hlen
      omega
    have hev : c.evictIfFull k = c := evictIfFull_of_not_full k hnotfull
    have hc' : (c.putk k (v k)).cache = (l ++ [k]).map (fun k => (k, v k)) := by
      show insertKey (c.evictIfFull k).cache k (v k) = _
      rw [hev, insertKey_of_none _ hlookup, hc, List.map_append]
      rfl
    have ho' : (c.putk k (v k)).accessOrder = l ++ [k] := by
      show (c.evictIfFull k).accessOrder.erase k ++ [k] = _
      rw [hev, ho, List.erase_of_not_mem hkl]
    have hnd' : ((l ++ [k]) ++ ks).Nodup := by
      rw [List.append_assoc]
      exact hnd
    have hlen' : (l ++ [k]).length + ks.length ≤ (c.putk k (v k)).maxSize := by
      rw [putk_maxSize, List.length_append]
      simp only [List.length_append, List.length_cons, List.length_nil] at hlen ⊢
      omega
    have hstep := ih (l ++ [k]) v (c.putk k (v k)) hc' ho' hnd' hlen'
    have hfold : fillCache c (k :: ks) v = fillCache (c.putk k (v k)) ks v := rfl
    rw [hfold]
    rw [List.append_assoc] at hstep
    refine ⟨hstep.1, hstep.2.1, hstep.2.2.trans (putk_maxSize c k (v k))⟩

theorem getk_snd_of_some {c : CollisionCache} {k : CKey} {v0 : Bool}
    (h : lookupKey c.cache k = some v0) :
    (c.getk k).2 = { c with accessOrder := c.accessOrder.erase k ++ [k] } := by
  unfold CollisionCache.getk
  rw [h]

/-- C5: LRU eviction.  Filling a fresh cache of capacity `N` with `N`
distinct keys and then putting one more fresh key evicts exactly the least
recently used entry (the first key put): the surviving dict holds exactly
`ks.tail ++ [k']`, as does the access order.  And if some cached key `ki`
is re-accessed with `get` before the `(N+1)`-th `put`, `ki` is promoted
and survives that `put` (for `N ≥ 2`; with `N = 1` the sole entry is
necessarily the victim), the new key is present, and exactly one entry was
evicted (the dict size is back at `N`). -/
theorem spec_C5 (N : Nat) (ks : List CKey) (v : CKey → Bool) (k' : CKey) (v' : Bool)
    (ki : CKey) (hnd : ks.Nodup) (hlen : ks.length = N) (hk' : k' ∉ ks) (hki : ki ∈ ks) :
    (1 ≤ N →
      ((fillCache (CollisionCache.empty N) ks v).putk k' v').cache.map Prod.fst =
          ks.tail ++ [k'] ∧
        ((fillCache (CollisionCache.empty N) ks v).putk k' v').accessOrder =
          ks.tail ++ [k']) ∧
    (2 ≤ N →
      ki ∈ ((((fillCache (CollisionCache.empty N) ks v).getk ki).2.putk k' v').cache.map
          Prod.fst) ∧
        k' ∈ ((((fillCache (CollisionCache.empty N) ks v).getk ki).2.putk k' v').cache.map
          Prod.fst) ∧
        (((fillCache (CollisionCache.empty N) ks v).getk ki).2.putk k' v').cache.length = N) := by
  obtain ⟨hc, ho, hm⟩ := fillCache_spec ks [] v (CollisionCache.empty N) rfl rfl
    (by simpa using hnd) (by simp [hlen, CollisionCache.empty])
  simp only [List.nil_append] at hc ho
  have hmm : (fillCache (CollisionCache.empty N) ks v).maxSize = N := hm
  have hfull : (fillCache (CollisionCache.empty N) ks v).cache.length ≥
      (fillCache (CollisionCache.empty N) ks v).maxSize := by
    rw [hc, hmm, List.length_map, hlen]
  have hfresh : lookupKey (fillCache (CollisionCache.empty N) ks v).cache k' = none := by
    rw [hc]
    exact lookup_mapkeys_none hk'
  constructor
  · intro hN
    have hksne : ks ≠ [] := by
      intro h
      rw [h] at hlen
      simp at hlen
      omega
    obtain ⟨k0, kt, hks⟩ := List.exists_cons_of_ne_nil hksne
    have hkt : k' ∉ kt := by
      intro h
      exact hk' (by rw [hks]; exact List.mem_cons_of_mem _ h)
    obtain ⟨hcache', horder'⟩ := putk_full_fresh (fillCache (CollisionCache.empty N) ks v)
      k' v' k0 kt hfull hfresh (by rw [ho, hks])
    have hdel : delKey (fillCache (CollisionCache.empty N) ks v).cache k0 =
        kt.map (fun k => (k, v k)) := by
      rw [hc, hks, List.map_cons]
      exact List.eraseP_cons_of_pos (by simp)
    have hfresh2 : lookupKey (kt.map (fun k => (k, v k))) k' = none :=
      lookup_mapkeys_none hkt
    constructor
    · rw [hcache', hdel, insertKey_of_none _ hfresh2, List.map_append, mapkeys_fst, hks]
      rfl
    · rw [horder', List.erase_of_not_mem hkt, hks]
      rfl
  · intro hN2
    have hlk : lookupKey (fillCache (CollisionCache.empty N) ks v).cache ki = some (v ki) := by
      rw [hc]
      exact lookup_mapkeys_mem hki
    have hs1 : ((fillCache (CollisionCache.empty N) ks v).getk ki).2 =
        { fillCache (CollisionCache.empty N) ks v with
          accessOrder := (fillCache (CollisionCache.empty N) ks v).accessOrder.erase ki
            ++ [ki] } := getk_snd_of_some hlk
    have hne : ks.erase ki ≠ [] := by
      have hl := List.length_erase_of_mem hki
      intro h
      rw [h] at hl
      simp at hl
      omega
    obtain ⟨e, tl, het⟩ := List.exists_cons_of_ne_nil hne
    have ho3 : ((fillCache (CollisionCache.empty N) ks v).getk ki).2.accessOrder =
        e :: (tl ++ [ki]) := by
      rw [hs1]
      show (fillCache (CollisionCache.empty N) ks v).accessOrder.erase ki ++ [ki] = _
      rw [ho, het]
      rfl
    have hcache_s1 : ((fillCache (CollisionCache.empty N) ks v).getk ki).2.cache =
        (fillCache (CollisionCache.empty N) ks v).cache := by
      rw [hs1]
    have hfull1 : ((fillCache (CollisionCache.empty N) ks v).getk ki).2.cache.length ≥
        ((fillCache (CollisionCache.empty N) ks v).getk ki).2.maxSize := by
      rw [hcache_s1]
      have : ((fillCache (CollisionCache.empty N) ks v).getk ki).2.maxSize =
          (fillCache (CollisionCache.empty N) ks v).maxSize := by rw [hs1]
      rw [this]
      exact hfull
    have hfresh1 : lookupKey ((fillCache (CollisionCache.empty N) ks v).getk ki).2.cache
        k' = none := by
      rw [hcache_s1]
      exact hfresh
    obtain ⟨hcache2, _⟩ := putk_full_fresh ((fillCache (CollisionCache.empty N) ks v).getk ki).2
      k' v' e (tl ++ [ki]) hfull1 hfresh1 ho3
    have he_mem : e ∈ ks.erase ki := by
      rw [het]
      exact List.mem_cons_self _ _
    have hki_not : ki ∉ ks.erase ki := hnd.not_mem_erase
    have he_ne : e ≠ ki := by
      intro h
      rw [h] at he_mem
      exact hki_not he_mem
    have he_inks : e ∈ ks := List.mem_of_mem_erase he_mem
    have entry_e : ((e, v e) : CKey × Bool) ∈
        ((fillCache (CollisionCache.empty N) ks v).getk ki).2.cache := by
      rw [hcache_s1, hc]
      exact List.mem_map.mpr ⟨e, he_inks, rfl⟩
    have hdel_len :
        (delKey ((fillCache (CollisionCache.empty N) ks v).getk ki).2.cache e).length =
          N - 1 := by
      unfold delKey
      rw [List.length_eraseP_of_mem entry_e (by simp), hcache_s1, hc, List.length_map, hlen]
    have hfresh_del :
        lookupKey (delKey ((fillCache (CollisionCache.empty N) ks v).getk ki).2.cache e)
          k' = none := lookupKey_delKey_none hfresh1
    have hins := insertKey_of_none v' hfresh_del
    have hki_entry : ((ki, v ki) : CKey × Bool) ∈
        delKey ((fillCache (CollisionCache.empty N) ks v).getk ki).2.cache e := by
      refine (List.mem_eraseP_of_neg ?_).mpr ?_
      · simp [he_ne.symm]
      · rw [hcache_s1, hc]
        exact List.mem_map.mpr ⟨ki, hki, rfl⟩
    refine ⟨?_, ?_, ?_⟩
    · rw [hcache2, hins]
      exact List.mem_map.mpr ⟨(ki, v ki), List.mem_append_left _ hki_entry, rfl⟩
    · rw [hcache2, hins]
      exact List.mem_map.mpr ⟨(k', v'), List.mem_append_right _ (List.mem_singleton_self _), rfl⟩
    · rw [hcache2, hins, List.length_append, hdel_len]
      simp only [List.length_cons, List.length_nil]
      omega

/-- A concrete key for the C5 witness. -/
def c5_keyA : CKey := (0, 0, (0, 0), (0, 0))

/-- A concrete key for the C5 witness. -/
def c5_keyB : CKey := (1, 1, (0, 0), (0, 0))

/-- The extra fresh key for the C5 witness. -/
def c5_keyNew : CKey := (2, 2, (0, 0), (0, 0))

/-- The two keys filling a capacity-2 cache in the C5 witness. -/
def c5_keys : List CKey := [c5_keyA, c5_keyB]

/-- Values stored in the C5 witness. -/
def c5_vals : CKey → Bool := fun _ => true

/-- Witness for C5: capacity 2, keys A then B, then a get of A followed by
a put of the fresh key. -/
theorem spec_C5_witness :
    (c5_keys.Nodup ∧ c5_keys.length = 2 ∧ c5_keyNew ∉ c5_keys ∧ c5_keyA ∈ c5_keys) ∧
    ((1 ≤ 2 →
      ((fillCache (CollisionCache.empty 2) c5_keys c5_vals).putk c5_keyNew false).cache.map
          Prod.fst = c5_keys.tail ++ [c5_keyNew] ∧
        ((fillCache (CollisionCache.empty 2) c5_keys c5_vals).putk c5_keyNew
          false).accessOrder = c5_keys.tail ++ [c5_keyNew]) ∧
    (2 ≤ 2 →
      c5_keyA ∈ ((((fillCache (CollisionCache.empty 2) c5_keys c5_vals).getk
          c5_keyA).2.putk c5_keyNew false).cache.map Prod.fst) ∧
        c5_keyNew ∈ ((((fillCache (CollisionCache.empty 2) c5_keys c5_vals).getk
          c5_keyA).2.putk c5_keyNew false).cache.map Prod.fst) ∧
        (((fillCache (CollisionCache.empty 2) c5_keys c5_vals).getk
          c5_keyA).2.putk c5_keyNew false).cache.length = 2)) :=
  ⟨⟨by decide, by decide, by decide, by decide⟩,
    spec_C5 2 c5_keys c5_vals c5_keyNew false c5_keyA (by decide) (by decide)
      (by decide) (by decide)⟩

/-- Entity identities are injective on a collection: Python guarantees this
for live objects, since `id()` is unique among them. -/
def IdInj (E : List Entity) : Prop :=
  ∀ x ∈ E, ∀ y ∈ E, x.eid = y.eid → x = y

/-- Every entry of the cache dict keyed by a pair of entities of `E` holds
the predicate's value on that pair. -/
def CacheGood (pred : Entity → Entity → Bool) (E : List Entity) (c : CollisionCache) : Prop :=
  ∀ x ∈ E, ∀ y ∈ E, ∀ v : Bool, (cacheKey x y, v) ∈ c.cache → v = pred x y

theorem cacheKey_eq_cases {E : List Entity} (hinj : IdInj E) {x y s1 s2 : Entity}
    (hx : x ∈ E) (hy : y ∈ E) (hs1 : s1 ∈ E) (hs2 : s2 ∈ E)
    (hk : cacheKey x y = cacheKey s1 s2) : (x = s1 ∧ y = s2) ∨ (x = s2 ∧ y = s1) := by
  unfold cacheKey at hk
  simp only [Prod.mk.injEq] at hk
  obtain ⟨h1, h2, _, _⟩ := hk
  have hids : (x.eid = s1.eid ∧ y.eid = s2.eid) ∨ (x.eid = s2.eid ∧ y.eid = s1.eid) := by
    omega
  rcases hids with ⟨e1, e2⟩ | ⟨e1, e2⟩
  · exact Or.inl ⟨hinj x hx s1 hs1 e1, hinj y hy s2 hs2 e2⟩
  · exact Or.inr ⟨hinj x hx s2 hs2 e1, hinj y hy s1 hs1 e2⟩

theorem resolve_of_uncached (pred : Entity → Entity → Bool) (c : CollisionCache)
    (s1 s2 : Entity) : resolveCollision false pred c s1 s2 = (pred s1 s2, c) := rfl

theorem resolve_of_hit {pred : Entity → Entity → Bool} {c : CollisionCache}
    {s1 s2 : Entity} {v0 : Bool} (h : lookupKey c.cache (cacheKey s1 s2) = some v0) :
    resolveCollision true pred c s1 s2 =
      (v0, { c with accessOrder := c.accessOrder.erase (cacheKey s1 s2) ++ [cacheKey s1 s2] }) := by
  unfold resolveCollision CollisionCache.get CollisionCache.getk
  rw [h]
  rfl

theorem resolve_of_miss {pred : Entity → Entity → Bool} {c : CollisionCache}
    {s1 s2 : Entity} (h : lookupKey c.cache (cacheKey s1 s2) = none) :
    resolveCollision true pred c s1 s2 =
      (pred s1 s2, c.put s1 s2 (pred s1 s2)) := by
  unfold resolveCollision CollisionCache.get CollisionCache.getk
  rw [h]
  rfl

theorem CacheGood_empty (pred : Entity → Entity → Bool) (E : List Entity) (n : Nat) :
    CacheGood pred E (CollisionCache.empty n) := by
  intro x _ y _ v hv
  exact absurd hv (List.not_mem_nil _)

theorem CacheGood_resolve (u : Bool) {pred : Entity → Entity → Bool} {E : List Entity}
    {c : CollisionCache} {s1 s2 : Entity}
    (hsym : ∀ a b, pred a b = pred b a) (hinj : IdInj E)
    (hgood : CacheGood pred E c) (hs1 : s1 ∈ E) (hs2 : s2 ∈ E) :
    (resolveCollision u pred c s1 s2).1 = pred s1 s2 ∧
      CacheGood pred E (resolveCollision u pred c s1 s2).2 := by
  by_cases hu : u = true
  · subst hu
    rcases hl : lookupKey c.cache (cacheKey s1 s2) with _ | v0
    · rw [resolve_of_miss hl]
      refine ⟨rfl, ?_⟩
      intro x hx y hy v hv
      rcases putk_cache_cases c (cacheKey s1 s2) (pred s1 s2) with hpc | ⟨o, hpc⟩ <;>
      · rw [CollisionCache.put, hpc] at hv
        rcases mem_insertKey hv with hv' | hv'
        · first
          | exact hgood x hx y hy v hv'
          | exact hgood x hx y hy v (mem_delKey hv')
        · simp only [Prod.mk.injEq] at hv'
          obtain ⟨hk, hveq⟩ := hv'
          rcases cacheKey_eq_cases hinj hx hy hs1 hs2 hk with ⟨rfl, rfl⟩ | ⟨rfl, rfl⟩
          · exact hveq
          · rw [hveq, hsym]
    · rw [resolve_of_hit hl]
      refine ⟨?_, ?_⟩
      · have hmem := lookupKey_mem hl
        exact hgood s1 hs1 s2 hs2 v0 hmem
      · intro x hx y hy v hv
        exact hgood x hx y hy v hv
  · simp only [Bool.not_eq_true] at hu
    subst hu
    rw [resolve_of_uncached]
    exact ⟨rfl, hgood⟩

theorem pairsOf_addHit_iff {hits : List (Entity × List Entity)} {s1 s2 x y : Entity} :
    (x, y) ∈ pairsOf (addHit hits s1 s2) ↔
      (x, y) ∈ pairsOf hits ∨ (x = s1 ∧ y = s2) := by
  constructor
  · exact pairsOf_addHit_sub
  · rintro (h | ⟨rfl, rfl⟩)
    · exact pairsOf_addHit_mono h
    · exact pairsOf_addHit_self hits x y

theorem stepCandidate_eq (u : Bool) (pred : Entity → Entity → Bool) (dk1 dk2 : Bool)
    (s1 : Entity) (st : ScanState) (s2 : Entity) :
    (stepCandidate u pred dk1 dk2 s1 st s2).cache =
        (resolveCollision u pred st.cache s1 s2).2 ∧
      (stepCandidate u pred dk1 dk2 s1 st s2).hits =
        (if (resolveCollision u pred st.cache s1 s2).1 = true then addHit st.hits s1 s2
          else st.hits) := by
  unfold stepCandidate
  by_cases hr : (resolveCollision u pred st.cache s1 s2).1 = true
  · rw [if_pos hr, if_pos hr]
    exact ⟨rfl, rfl⟩
  · rw [if_neg hr, if_neg hr]
    exact ⟨rfl, rfl⟩

theorem candFold_pairs_full {u : Bool} {pred : Entity → Entity → Bool} {E : List Entity}
    {dk1 dk2 : Bool} {s1 : Entity}
    (hsym : ∀ a b, pred a b = pred b a) (hinj : IdInj E) (hs1 : s1 ∈ E) :
    ∀ (cands : List Entity) (st : ScanState), CacheGood pred E st.cache →
      (∀ c ∈ cands, c ∈ E) →
      (CacheGood pred E ((cands.foldl (stepCandidate u pred dk1 dk2 s1) st).cache) ∧
        ∀ x y : Entity,
          ((x, y) ∈ pairsOf ((cands.foldl (stepCandidate u pred dk1 dk2 s1) st).hits) ↔
            (x, y) ∈ pairsOf st.hits ∨ (x = s1 ∧ y ∈ cands ∧ pred s1 y = true))) := by
  intro cands
  induction cands with
  | nil =>
    intro st hg _
    refine ⟨hg, fun x y => ?_⟩
    simp
  | cons c cs ih =>
    intro st hg hsub
    have hcE : c ∈ E := hsub c (List.mem_cons_self _ _)
    obtain ⟨hres, hgood'⟩ := CacheGood_resolve u hsym hinj hg hs1 hcE
    obtain ⟨hcache, hhits⟩ := stepCandidate_eq u pred dk1 dk2 s1 st c
    rw [List.foldl_cons]
    have hg' : CacheGood pred E (stepCandidate u pred dk1 dk2 s1 st c).cache := by
      rw [hcache]
      exact hgood'
    obtain ⟨hgf, hiff⟩ := ih (stepCandidate u pred dk1 dk2 s1 st c) hg'
      (fun d hd => hsub d (List.mem_cons_of_mem _ hd))
    refine ⟨hgf, fun x y => ?_⟩
    rw [hiff x y]
    by_cases hpc : pred s1 c = true
    · rw [hhits, if_pos (by rw [hres]; exact hpc), pairsOf_addHit_iff]
      constructor
      · rintro ((h | ⟨rfl, rfl⟩) | ⟨rfl, hy, hp⟩)
        · exact Or.inl h
        · exact Or.inr ⟨rfl, List.mem_cons_self _ _, hpc⟩
        · exact Or.inr ⟨rfl, List.mem_cons_of_mem _ hy, hp⟩
      · rintro (h | ⟨rfl, hy, hp⟩)
        · exact Or.inl (Or.inl h)
        · rcases List.mem_cons.mp hy with rfl | hy'
          · exact Or.inl (Or.inr ⟨rfl, rfl⟩)
          · exact Or.inr ⟨rfl, hy', hp⟩
    · rw [hhits, if_neg (by rw [hres]; exact hpc)]
      constructor
      · rintro (h | ⟨rfl, hy, hp⟩)
        · exact Or.inl h
        · exact Or.inr ⟨rfl, List.mem_cons_of_mem _ hy, hp⟩
      · rintro (h | ⟨rfl, hy, hp⟩)
        · exact Or.inl h
        · rcases List.mem_cons.mp hy with rfl | hy'
          · exact absurd hp hpc
          · exact Or.inr ⟨rfl, hy', hp⟩

theorem groupFold_pairs_full (u : Bool) {pred : Entity → Entity → Bool} {E : List Entity}
    (dk1 dk2 : Bool) {hsh : SpatialHash}
    (hsym : ∀ a b, pred a b = pred b a) (hinj : IdInj E)
    (hq : ∀ s : Entity, ∀ y ∈ hsh.query s, y ∈ E) :
    ∀ (g1 : List Entity) (st : ScanState), CacheGood pred E st.cache → (∀ s ∈ g1, s ∈ E) →
      (CacheGood pred E ((g1.foldl (scanSprite hsh u pred dk1 dk2) st).cache) ∧
        ∀ x y : Entity,
          ((x, y) ∈ pairsOf ((g1.foldl (scanSprite hsh u pred dk1 dk2) st).hits) ↔
            (x, y) ∈ pairsOf st.hits ∨
              (x ∈ g1 ∧ y ∈ hsh.query x ∧ pred x y = true))) := by
  intro g1
  induction g1 with
  | nil =>
    intro st hg _
    refine ⟨hg, fun x y => ?_⟩
    simp
  | cons s1 ss ih =>
    intro st hg hsub
    have hs1 : s1 ∈ E := hsub s1 (List.mem_cons_self _ _)
    rw [List.foldl_cons]
    obtain ⟨hg', hiff1⟩ := candFold_pairs_full hsym hinj hs1 (hsh.query s1) st hg (hq s1)
    obtain ⟨hgf, hiff2⟩ := ih (scanSprite hsh u pred dk1 dk2 st s1) hg'
      (fun d hd => hsub d (List.mem_cons_of_mem _ hd))
    refine ⟨hgf, fun x y => ?_⟩
    rw [hiff2 x y]
    rw [show scanSprite hsh u pred dk1 dk2 st s1 =
      (hsh.query s1).foldl (stepCandidate u pred dk1 dk2 s1) st from rfl]
    rw [hiff1 x y]
    constructor
    · rintro ((h | ⟨rfl, hy, hp⟩) | ⟨hx, hy, hp⟩)
      · exact Or.inl h
      · exact Or.inr ⟨List.mem_cons_self _ _, hy, hp⟩
      · exact Or.inr ⟨List.mem_cons_of_mem _ hx, hy, hp⟩
    · rintro (h | ⟨hx, hy, hp⟩)
      · exact Or.inl (Or.inl h)
      · rcases List.mem_cons.mp hx with rfl | hx'
        · exact Or.inl (Or.inr ⟨rfl, hy, hp⟩)
        · exact Or.inr ⟨hx', hy, hp⟩

theorem query_build {cs : Int} {g2 : List Entity} {a b : Entity} :
    b ∈ (g2.foldl SpatialHash.insert (SpatialHash.empty cs)).query a ↔
      (b ≠ a ∧ b ∈ g2 ∧ ∃ c, c ∈ getCells cs a.rect ∧ c ∈ getCells cs b.rect) := by
  rw [mem_query, foldl_insert_cellSize g2 (SpatialHash.empty cs)]
  show (b ≠ a ∧ ∃ c ∈ getCells cs a.rect, b ∈ _) ↔ _
  constructor
  · rintro ⟨hne, c, hc, hbc⟩
    rcases (mem_foldl_insert_table g2 (SpatialHash.empty cs) c b).mp hbc with h0 | ⟨hbg, hcb⟩
    · exact absurd h0 (List.not_mem_nil _)
    · exact ⟨hne, hbg, c, hc, hcb⟩
  · rintro ⟨hne, hbg, c, hca, hcb⟩
    exact ⟨hne, c, hca,
      (mem_foldl_insert_table g2 (SpatialHash.empty cs) c b).mpr (Or.inr ⟨hbg, hcb⟩)⟩

/-- C1 counterexample to the claim as stated: two overlapping rectangles
entirely off the left edge of the screen.  Brute-force pairwise testing
reports the pair, but the detector's clamped cell spans are empty, so the
pair is silently dropped. -/
theorem spec_C1_counterexample :
    groupcollidePairs 64 [⟨1, ⟨-100, 50, 10, 10⟩⟩] [⟨2, ⟨-95, 50, 10, 10⟩⟩] = [] ∧
    bruteForcePairs [⟨1, ⟨-100, 50, 10, 10⟩⟩] [⟨2, ⟨-95, 50, 10, 10⟩⟩] =
      [(⟨1, ⟨-100, 50, 10, 10⟩⟩, ⟨2, ⟨-95, 50, 10, 10⟩⟩)] := by
  constructor <;> decide

/-- C1 (amended): exactness equivalence holds for collections of sprites
with injective identities and nonnegative-size rectangles whose clamped
cell spans are nonempty (in particular for anything at least partly on
screen): for every cell size in `[1, 1024]` the pair `(a, b)` is reported
by a fresh default detector exactly when `a` is in group 1, `b` is in
group 2, they are distinct and their rectangles pass the exact overlap
test.  Entities whose clamped span is empty (far off-screen) and
self-pairs (an entity contained in both groups) are the two exceptions the
code forces on the claim. -/
theorem spec_C1 (cs : Int) (g1 g2 : List Entity) (hcs1 : 1 ≤ cs) (hcs2 : cs ≤ 1024)
    (hinj : IdInj (g1 ++ g2))
    (hsz : ∀ e ∈ g1 ++ g2, 0 ≤ e.rect.w ∧ 0 ≤ e.rect.h)
    (hspan : ∀ e ∈ g1 ++ g2, getCells cs e.rect ≠ []) (a b : Entity) :
    ((a, b) ∈ groupcollidePairs cs g1 g2 ↔
      (a ∈ g1 ∧ b ∈ g2 ∧ a ≠ b ∧ a.rect.colliderect b.rect = true)) := by
  have hsym : ∀ x y : Entity, defaultCollided x y = defaultCollided y x :=
    fun x y => colliderect_comm x.rect y.rect
  have hq : ∀ (s : Entity), ∀ y ∈ (g2.foldl SpatialHash.insert (SpatialHash.empty cs)).query s,
      y ∈ g1 ++ g2 :=
    fun s y hy => List.mem_append_right _ (query_build.mp hy).2.1
  obtain ⟨_, hiff⟩ := groupFold_pairs_full true false false
    hsym hinj hq g1 ⟨CollisionCache.empty 1000, [], [], []⟩ (CacheGood_empty _ _ _)
    (fun s hs => List.mem_append_left _ hs)
  rw [groupcollidePairs, groupcollide_hits_eq, hiff a b]
  have hinit : (a, b) ∈ pairsOf (⟨CollisionCache.empty 1000, [], [], []⟩ : ScanState).hits ↔
      False := by
    simp [pairsOf]
  rw [hinit, false_or]
  constructor
  · rintro ⟨ha, hb, hcol⟩
    obtain ⟨hne, hbg, _⟩ := query_build.mp hb
    exact ⟨ha, hbg, fun h => hne h.symm, hcol⟩
  · rintro ⟨ha, hb, hne, hcol⟩
    refine ⟨ha, ?_, hcol⟩
    obtain ⟨haw, hah⟩ := hsz a (List.mem_append_left _ ha)
    obtain ⟨hbw, hbh⟩ := hsz b (List.mem_append_right _ hb)
    obtain ⟨c, hca, hcb⟩ := overlap_shared_cell (by omega) haw hah hbw hbh hcol
      (hspan a (List.mem_append_left _ ha)) (hspan b (List.mem_append_right _ hb))
    exact query_build.mpr ⟨fun h => hne h.symm, hb, c, hca, hcb⟩

/-- Witness for C1: cell size 64, two distinct on-screen overlapping
sprites. -/
theorem spec_C1_witness :
    ((1 : Int) ≤ 64 ∧ (64 : Int) ≤ 1024 ∧
      IdInj ([⟨1, ⟨0, 0, 10, 10⟩⟩] ++ [⟨2, ⟨5, 5, 10, 10⟩⟩]) ∧
      (∀ e ∈ [(⟨1, ⟨0, 0, 10, 10⟩⟩ : Entity)] ++ [⟨2, ⟨5, 5, 10, 10⟩⟩],
        getCells 64 e.rect ≠ [])) ∧
    ((⟨1, ⟨0, 0, 10, 10⟩⟩, ⟨2, ⟨5, 5, 10, 10⟩⟩) ∈
        groupcollidePairs 64 [⟨1, ⟨0, 0, 10, 10⟩⟩] [⟨2, ⟨5, 5, 10, 10⟩⟩] ↔
      ((⟨1, ⟨0, 0, 10, 10⟩⟩ : Entity) ∈ [(⟨1, ⟨0, 0, 10, 10⟩⟩ : Entity)] ∧
        (⟨2, ⟨5, 5, 10, 10⟩⟩ : Entity) ∈ [(⟨2, ⟨5, 5, 10, 10⟩⟩ : Entity)] ∧
        (⟨1, ⟨0, 0, 10, 10⟩⟩ : Entity) ≠ ⟨2, ⟨5, 5, 10, 10⟩⟩ ∧
        Rect.colliderect ⟨0, 0, 10, 10⟩ ⟨5, 5, 10, 10⟩ = true)) :=
  ⟨⟨by decide, by decide, by unfold IdInj; decide, by decide⟩,
    spec_C1 64 [⟨1, ⟨0, 0, 10, 10⟩⟩] [⟨2, ⟨5, 5, 10, 10⟩⟩] (by decide) (by decide)
      (by unfold IdInj; decide) (by decide) (by decide) ⟨1, ⟨0, 0, 10, 10⟩⟩
      ⟨2, ⟨5, 5, 10, 10⟩⟩⟩

theorem mem_addKill {l : List Entity} {s e : Entity} :
    e ∈ addKill l s ↔ e ∈ l ∨ e = s := by
  unfold addKill
  by_cases hs : s ∈ l
  · rw [if_pos hs]
    constructor
    · exact Or.inl
    · rintro (h | rfl)
      · exact h
      · exact hs
  · rw [if_neg hs]
    rw [List.mem_append, List.mem_singleton]

theorem stepCandidate_shape (u : Bool) (pred : Entity → Entity → Bool) (dk1 dk2 : Bool)
    (s1 : Entity) (st : ScanState) (s2 : Entity) :
    ((stepCandidate u pred dk1 dk2 s1 st s2).hits = addHit st.hits s1 s2 ∧
      (stepCandidate u pred dk1 dk2 s1 st s2).kills1 =
        (if dk1 = true then addKill st.kills1 s1 else st.kills1) ∧
      (stepCandidate u pred dk1 dk2 s1 st s2).kills2 =
        (if dk2 = true then addKill st.kills2 s2 else st.kills2)) ∨
    ((stepCandidate u pred dk1 dk2 s1 st s2).hits = st.hits ∧
      (stepCandidate u pred dk1 dk2 s1 st s2).kills1 = st.kills1 ∧
      (stepCandidate u pred dk1 dk2 s1 st s2).kills2 = st.kills2) := by
  unfold stepCandidate
  by_cases hr : (resolveCollision u pred st.cache s1 s2).1 = true
  · rw [if_pos hr]
    exact Or.inl ⟨rfl, rfl, rfl⟩
  · rw [if_neg hr]
    exact Or.inr ⟨rfl, rfl, rfl⟩

theorem stepCandidate_kills_inv (u : Bool) (pred : Entity → Entity → Bool) (dk1 dk2 : Bool)
    (s1 : Entity) (st : ScanState) (s2 : Entity)
    (h1 : ∀ e : Entity, e ∈ st.kills1 ↔ (dk1 = true ∧ ∃ y, (e, y) ∈ pairsOf st.hits))
    (h2 : ∀ e : Entity, e ∈ st.kills2 ↔ (dk2 = true ∧ ∃ x, (x, e) ∈ pairsOf st.hits)) :
    (∀ e : Entity, e ∈ (stepCandidate u pred dk1 dk2 s1 st s2).kills1 ↔
      (dk1 = true ∧ ∃ y, (e, y) ∈ pairsOf (stepCandidate u pred dk1 dk2 s1 st s2).hits)) ∧
    (∀ e : Entity, e ∈ (stepCandidate u pred dk1 dk2 s1 st s2).kills2 ↔
      (dk2 = true ∧ ∃ x, (x, e) ∈ pairsOf (stepCandidate u pred dk1 dk2 s1 st s2).hits)) := by
  rcases stepCandidate_shape u pred dk1 dk2 s1 st s2 with ⟨hh, hk1, hk2⟩ | ⟨hh, hk1, hk2⟩
  · rw [hh, hk1, hk2]
    constructor
    · intro e
      by_cases hdk : dk1 = true
      · rw [if_pos hdk, mem_addKill]
        constructor
        · rintro (he | rfl)
          · obtain ⟨_, y, hy⟩ := (h1 e).mp he
            exact ⟨hdk, y, pairsOf_addHit_mono hy⟩
          · exact ⟨hdk, s2, pairsOf_addHit_self _ _ _⟩
        · rintro ⟨_, y, hy⟩
          rcases pairsOf_addHit_sub hy with h | ⟨he, _⟩
          · exact Or.inl ((h1 e).mpr ⟨hdk, y, h⟩)
          · exact Or.inr he
      · rw [if_neg hdk]
        constructor
        · intro he
          exact absurd ((h1 e).mp he).1 hdk
        · rintro ⟨hd, _⟩
          exact absurd hd hdk
    · intro e
      by_cases hdk : dk2 = true
      · rw [if_pos hdk, mem_addKill]
        constructor
        · rintro (he | rfl)
          · obtain ⟨_, x, hx⟩ := (h2 e).mp he
            exact ⟨hdk, x, pairsOf_addHit_mono hx⟩
          · exact ⟨hdk, s1, pairsOf_addHit_self _ _ _⟩
        · rintro ⟨_, x, hx⟩
          rcases pairsOf_addHit_sub hx with h | ⟨_, he⟩
          · exact Or.inl ((h2 e).mpr ⟨hdk, x, h⟩)
          · exact Or.inr he
      · rw [if_neg hdk]
        constructor
        · intro he
          exact absurd ((h2 e).mp he).1 hdk
        · rintro ⟨hd, _⟩
          exact absurd hd hdk
  · rw [hh, hk1, hk2]
    exact ⟨h1, h2⟩

theorem candFold_kills_inv (u : Bool) (pred : Entity → Entity → Bool) (dk1 dk2 : Bool)
    (s1 : Entity) :
    ∀ (cands : List Entity) (st : ScanState),
      (∀ e : Entity, e ∈ st.kills1 ↔ (dk1 = true ∧ ∃ y, (e, y) ∈ pairsOf st.hits)) →
      (∀ e : Entity, e ∈ st.kills2 ↔ (dk2 = true ∧ ∃ x, (x, e) ∈ pairsOf st.hits)) →
      ((∀ e : Entity,
          e ∈ ((cands.foldl (stepCandidate u pred dk1 dk2 s1) st).kills1) ↔
            (dk1 = true ∧ ∃ y, (e, y) ∈
              pairsOf ((cands.foldl (stepCandidate u pred dk1 dk2 s1) st).hits))) ∧
        (∀ e : Entity,
          e ∈ ((cands.foldl (stepCandidate u pred dk1 dk2 s1) st).kills2) ↔
            (dk2 = true ∧ ∃ x, (x, e) ∈
              pairsOf ((cands.foldl (stepCandidate u pred dk1 dk2 s1) st).hits)))) := by
  intro cands
  induction cands with
  | nil => exact fun st h1 h2 => ⟨h1, h2⟩
  | cons c cs ih =>
    intro st h1 h2
    rw [List.foldl_cons]
    obtain ⟨h1', h2'⟩ := stepCandidate_kills_inv u pred dk1 dk2 s1 st c h1 h2
    exact ih _ h1' h2'

theorem groupFold_kills_inv (hsh : SpatialHash) (u : Bool)
    (pred : Entity → Entity → Bool) (dk1 dk2 : Bool) :
    ∀ (g1 : List Entity) (st : ScanState),
      (∀ e : Entity, e ∈ st.kills1 ↔ (dk1 = true ∧ ∃ y, (e, y) ∈ pairsOf st.hits)) →
      (∀ e : Entity, e ∈ st.kills2 ↔ (dk2 = true ∧ ∃ x, (x, e) ∈ pairsOf st.hits)) →
      ((∀ e : Entity,
          e ∈ ((g1.foldl (scanSprite hsh u pred dk1 dk2) st).kills1) ↔
            (dk1 = true ∧ ∃ y, (e, y) ∈
              pairsOf ((g1.foldl (scanSprite hsh u pred dk1 dk2) st).hits))) ∧
        (∀ e : Entity,
          e ∈ ((g1.foldl (scanSprite hsh u pred dk1 dk2) st).kills2) ↔
            (dk2 = true ∧ ∃ x, (x, e) ∈
              pairsOf ((g1.foldl (scanSprite hsh u pred dk1 dk2) st).hits)))) := by
  intro g1
  induction g1 with
  | nil => exact fun st h1 h2 => ⟨h1, h2⟩
  | cons s1 ss ih =>
    intro st h1 h2
    rw [List.foldl_cons]
    obtain ⟨h1', h2'⟩ := candFold_kills_inv u pred dk1 dk2 s1 (hsh.query s1) st h1 h2
    exact ih _ h1' h2'

theorem groupcollide_kills1_eq (cellSize : Int) (u : Bool) (c0 : CollisionCache)
    (pred : Entity → Entity → Bool) (g1 g2 : List Entity) (dk1 dk2 : Bool) :
    (groupcollide cellSize u c0 pred g1 g2 dk1 dk2).kills1 =
      (g1.foldl
        (scanSprite (g2.foldl SpatialHash.insert (SpatialHash.empty cellSize)) u pred dk1 dk2)
        ⟨c0, [], [], []⟩).kills1 := rfl

theorem groupcollide_kills2_eq (cellSize : Int) (u : Bool) (c0 : CollisionCache)
    (pred : Entity → Entity → Bool) (g1 g2 : List Entity) (dk1 dk2 : Bool) :
    (groupcollide cellSize u c0 pred g1 g2 dk1 dk2).kills2 =
      (g1.foldl
        (scanSprite (g2.foldl SpatialHash.insert (SpatialHash.empty cellSize)) u pred dk1 dk2)
        ⟨c0, [], [], []⟩).kills2 := rfl

theorem groupcollide_group1_eq (cellSize : Int) (u : Bool) (c0 : CollisionCache)
    (pred : Entity → Entity → Bool) (g1 g2 : List Entity) (dk1 dk2 : Bool) :
    (groupcollide cellSize u c0 pred g1 g2 dk1 dk2).group1 =
      g1.filter (fun e =>
        e ∉ (groupcollide cellSize u c0 pred g1 g2 dk1 dk2).kills1 ∧
        e ∉ (groupcollide cellSize u c0 pred g1 g2 dk1 dk2).kills2) := rfl

theorem groupcollide_group2_eq (cellSize : Int) (u : Bool) (c0 : CollisionCache)
    (pred : Entity → Entity → Bool) (g1 g2 : List Entity) (dk1 dk2 : Bool) :
    (groupcollide cellSize u c0 pred g1 g2 dk1 dk2).group2 =
      g2.filter (fun e =>
        e ∉ (groupcollide cellSize u c0 pred g1 g2 dk1 dk2).kills1 ∧
        e ∉ (groupcollide cellSize u c0 pred g1 g2 dk1 dk2).kills2) := rfl

theorem spritecollide_group_eq (cellSize : Int) (u : Bool) (c0 : CollisionCache)
    (pred : Entity → Entity → Bool) (s : Entity) (g : List Entity) (dk : Bool) :
    (spritecollide cellSize u c0 pred s g dk).group =
      g.filter (fun e => e ∉ (spritecollide cellSize u c0 pred s g dk).kills) := rfl

/-- C6: kill semantics and framing.  For `groupcollide_optimized`:
(1) the deferred kill lists never contain an entity twice;
(2) an entity is on a kill list exactly when its flag is set and it was
matched (it has a counterpart in the returned hits), so together with (1)
every matched entity is removed exactly once — no missing removal and no
double removal;
(3) membership of the returned groups: an entity survives exactly when it
was in the input group and on neither kill list (a killed sprite leaves
every group holding it, as `sprite.kill()` does);
(4) and (5) consequently, with a kill flag set, every matched entity is
absent from the corresponding returned group;
(6) the hits are identical whatever the kill flags — removals are applied
only after the candidate scan over the full groups, never during
iteration;
(7) with both kill flags false the two groups are returned unchanged.
For `spritecollide_optimized`: (8) the kill list never contains an entity
twice; (9) it equals the collision list when the kill flag is set and is
empty otherwise, so every matched entity is removed exactly once;
(10) with the flag set every reported entity is absent from the returned
group; (11) the collision list is identical whatever the kill flag; and
(12) with the flag false the group is returned unchanged. -/
theorem spec_C6 (cellSize : Int) (u : Bool) (c0 : CollisionCache)
    (pred : Entity → Entity → Bool) (g1 g2 : List Entity) (dk1 dk2 : Bool)
    (s : Entity) (g : List Entity) (dk : Bool) :
    ((groupcollide cellSize u c0 pred g1 g2 dk1 dk2).kills1.Nodup ∧
      (groupcollide cellSize u c0 pred g1 g2 dk1 dk2).kills2.Nodup) ∧
    (∀ e : Entity,
      (e ∈ (groupcollide cellSize u c0 pred g1 g2 dk1 dk2).kills1 ↔
        (dk1 = true ∧ ∃ y, (e, y) ∈
          pairsOf (groupcollide cellSize u c0 pred g1 g2 dk1 dk2).hits)) ∧
      (e ∈ (groupcollide cellSize u c0 pred g1 g2 dk1 dk2).kills2 ↔
        (dk2 = true ∧ ∃ x, (x, e) ∈
          pairsOf (groupcollide cellSize u c0 pred g1 g2 dk1 dk2).hits))) ∧
    (∀ e : Entity,
      (e ∈ (groupcollide cellSize u c0 pred g1 g2 dk1 dk2).group1 ↔
        (e ∈ g1 ∧ e ∉ (groupcollide cellSize u c0 pred g1 g2 dk1 dk2).kills1 ∧
          e ∉ (groupcollide cellSize u c0 pred g1 g2 dk1 dk2).kills2)) ∧
      (e ∈ (groupcollide cellSize u c0 pred g1 g2 dk1 dk2).group2 ↔
        (e ∈ g2 ∧ e ∉ (groupcollide cellSize u c0 pred g1 g2 dk1 dk2).kills1 ∧
          e ∉ (groupcollide cellSize u c0 pred g1 g2 dk1 dk2).kills2))) ∧
    (dk1 = true → ∀ e y : Entity,
      (e, y) ∈ pairsOf (groupcollide cellSize u c0 pred g1 g2 dk1 dk2).hits →
      e ∉ (groupcollide cellSize u c0 pred g1 g2 dk1 dk2).group1) ∧
    (dk2 = true → ∀ x e : Entity,
      (x, e) ∈ pairsOf (groupcollide cellSize u c0 pred g1 g2 dk1 dk2).hits →
      e ∉ (groupcollide cellSize u c0 pred g1 g2 dk1 dk2).group2) ∧
    (groupcollide cellSize u c0 pred g1 g2 dk1 dk2).hits =
      (groupcollide cellSize u c0 pred g1 g2 false false).hits ∧
    ((groupcollide cellSize u c0 pred g1 g2 false false).group1 = g1 ∧
      (groupcollide cellSize u c0 pred g1 g2 false false).group2 = g2) ∧
    (spritecollide cellSize u c0 pred s g dk).kills.Nodup ∧
    (spritecollide cellSize u c0 pred s g dk).kills =
      (if dk = true then (spritecollide cellSize u c0 pred s g dk).collisions else []) ∧
    (dk = true → ∀ e ∈ (spritecollide cellSize u c0 pred s g dk).collisions,
      e ∉ (spritecollide cellSize u c0 pred s g dk).group) ∧
    (spritecollide cellSize u c0 pred s g dk).collisions =
      (spritecollide cellSize u c0 pred s g false).collisions ∧
    (spritecollide cellSize u c0 pred s g false).group = g := by
  have hbase1 : ∀ e : Entity, e ∈ (⟨c0, [], [], []⟩ : ScanState).kills1 ↔
      (dk1 = true ∧ ∃ y, (e, y) ∈ pairsOf (⟨c0, [], [], []⟩ : ScanState).hits) := by
    intro e
    simp [pairsOf]
  have hbase2 : ∀ e : Entity, e ∈ (⟨c0, [], [], []⟩ : ScanState).kills2 ↔
      (dk2 = true ∧ ∃ x, (x, e) ∈ pairsOf (⟨c0, [], [], []⟩ : ScanState).hits) := by
    intro e
    simp [pairsOf]
  obtain ⟨hk1, hk2⟩ := groupFold_kills_inv
    (g2.foldl SpatialHash.insert (SpatialHash.empty cellSize)) u pred dk1 dk2 g1
    ⟨c0, [], [], []⟩ hbase1 hbase2
  have hkillsiff : ∀ e : Entity,
      (e ∈ (groupcollide cellSize u c0 pred g1 g2 dk1 dk2).kills1 ↔
        (dk1 = true ∧ ∃ y, (e, y) ∈
          pairsOf (groupcollide cellSize u c0 pred g1 g2 dk1 dk2).hits)) ∧
      (e ∈ (groupcollide cellSize u c0 pred g1 g2 dk1 dk2).kills2 ↔
        (dk2 = true ∧ ∃ x, (x, e) ∈
          pairsOf (groupcollide cellSize u c0 pred g1 g2 dk1 dk2).hits)) := by
    intro e
    rw [groupcollide_kills1_eq, groupcollide_kills2_eq, groupcollide_hits_eq]
    exact ⟨hk1 e, hk2 e⟩
  have hgrpmem : ∀ e : Entity,
      (e ∈ (groupcollide cellSize u c0 pred g1 g2 dk1 dk2).group1 ↔
        (e ∈ g1 ∧ e ∉ (groupcollide cellSize u c0 pred g1 g2 dk1 dk2).kills1 ∧
          e ∉ (groupcollide cellSize u c0 pred g1 g2 dk1 dk2).kills2)) ∧
      (e ∈ (groupcollide cellSize u c0 pred g1 g2 dk1 dk2).group2 ↔
        (e ∈ g2 ∧ e ∉ (groupcollide cellSize u c0 pred g1 g2 dk1 dk2).kills1 ∧
          e ∉ (groupcollide cellSize u c0 pred g1 g2 dk1 dk2).kills2)) := by
    intro e
    constructor
    · rw [groupcollide_group1_eq, List.mem_filter]
      simp only [decide_eq_true_eq]
    · rw [groupcollide_group2_eq, List.mem_filter]
      simp only [decide_eq_true_eq]
  have hspritekills : (spritecollide cellSize u c0 pred s g dk).kills =
      (if dk = true then (spritecollide cellSize u c0 pred s g dk).collisions else []) := by
    rw [spritecollide_kills_eq, spritecollide_collisions_eq]
    obtain ⟨sub, _, hcol, hkil⟩ := spriteFold_shape u pred dk s
      ((g.foldl SpatialHash.insert (SpatialHash.empty cellSize)).query s) ⟨c0, [], []⟩
    rw [hkil, hcol, List.nil_append, List.nil_append]
  refine ⟨?_, hkillsiff, hgrpmem, ?_, ?_, ?_, ?_, ?_, hspritekills, ?_, ?_, ?_⟩
  · exact groupFold_kills_nodup _ u pred dk1 dk2 g1 ⟨c0, [], [], []⟩
      List.nodup_nil List.nodup_nil
  · intro hdk e y hpair hgrp
    have hkill : e ∈ (groupcollide cellSize u c0 pred g1 g2 dk1 dk2).kills1 :=
      ((hkillsiff e).1).mpr ⟨hdk, y, hpair⟩
    exact (((hgrpmem e).1).mp hgrp).2.1 hkill
  · intro hdk x e hpair hgrp
    have hkill : e ∈ (groupcollide cellSize u c0 pred g1 g2 dk1 dk2).kills2 :=
      ((hkillsiff e).2).mpr ⟨hdk, x, hpair⟩
    exact (((hgrpmem e).2).mp hgrp).2.2 hkill
  · exact (groupFold_cache_hits _ u pred dk1 dk2 false false g1
      ⟨c0, [], [], []⟩ ⟨c0, [], [], []⟩ rfl rfl).2
  · obtain ⟨h1, h2⟩ := groupFold_kills_false
      (g2.foldl SpatialHash.insert (SpatialHash.empty cellSize)) u pred g1 ⟨c0, [], [], []⟩
    constructor
    · show g1.filter _ = g1
      rw [h1, h2]
      simp
    · show g2.filter _ = g2
      rw [h1, h2]
      simp
  · rw [spritecollide_kills_eq]
    obtain ⟨sub, hsub, _, hkil⟩ := spriteFold_shape u pred dk s
      ((g.foldl SpatialHash.insert (SpatialHash.empty cellSize)).query s) ⟨c0, [], []⟩
    rw [hkil, List.nil_append]
    by_cases hdk : dk = true
    · rw [if_pos hdk]
      exact (query_nodup _ s).sublist hsub
    · rw [if_neg hdk]
      exact List.nodup_nil
  · intro hdk e hcol hgrp
    rw [spritecollide_group_eq, List.mem_filter] at hgrp
    have hek : e ∈ (spritecollide cellSize u c0 pred s g dk).kills := by
      rw [hspritekills, if_pos hdk]
      exact hcol
    simp only [decide_eq_true_eq] at hgrp
    exact hgrp.2 hek
  · rw [spritecollide_collisions_eq, spritecollide_collisions_eq]
    exact (spriteFold_cache_collisions u pred dk false s _ ⟨c0, [], []⟩ ⟨c0, [], []⟩ rfl rfl).2
  · obtain ⟨sub, hsub, _, hkil⟩ := spriteFold_shape u pred false s
      ((g.foldl SpatialHash.insert (SpatialHash.empty cellSize)).query s) ⟨c0, [], []⟩
    show g.filter _ = g
    rw [hkil]
    simp
